import Mathlib

/-!
# Verification of the Python source analyzer (`python_parser.py`)

Shallow embedding of the analysis engine in
`packages/rigour-core/src/gates/ast-handlers/python_parser.py`:
the metrics visitor, the security visitor, the textual SQL-injection
scanner, and the orchestrating `analyze_code` function, together with
theorems checking the specification's claims about them.

The Python standard-library `ast` module is an external collaborator:
we model the node shapes the analyzer reads (each node carrying its
`lineno`), plus the `posonlyargs` field of `arguments`, which exists in
the real `ast` but is never read by the analyzer.
-/

namespace Rigour

/-- Literal constant values (`ast.Constant.value`).  We model the kinds that
are relevant to the analyzer's comparisons: strings, booleans, integers and
`None`.  (Floats, bytes and ellipsis are omitted; none of the claims
involves them.) -/
inductive Const where
  | str (s : String)
  | boolC (b : Bool)
  | intC (n : Int)
  | noneC
  deriving DecidableEq, Repr

/-- Python `==` against the literal `False`, as used by
`node.value.value == False`: `False == False` and `0 == False` are true in
Python (`bool` is a subtype of `int`); strings and `None` are not equal to
`False`. -/
def Const.pyEqFalse : Const → Bool
  | .boolC false => true
  | .intC 0 => true
  | _ => false

/-- Python `==` against the literal `True`, as used by
`keyword.value.value == True`: `True == True` and `1 == True` are true in
Python. -/
def Const.pyEqTrue : Const → Bool
  | .boolC true => true
  | .intC 1 => true
  | _ => false

/-- Python `str.upper()` (ASCII view, which covers every name the rules
compare against). -/
def pyUpper (s : String) : String := ⟨s.data.map Char.toUpper⟩

/-- Python `str.lower()` (ASCII view). -/
def pyLower (s : String) : String := ⟨s.data.map Char.toLower⟩

def splitLinesAux : List Char → List (List Char)
  | [] => [[]]
  | c :: rest =>
      match splitLinesAux rest with
      | [] => [[]]
      | l :: ls => if c = '\n' then [] :: (l :: ls) else (c :: l) :: ls

/-- Python `content.split('\n')`. -/
def pySplitNl (s : String) : List String := (splitLinesAux s.data).map fun l => ⟨l⟩

/-- The `ast.arguments` record, with the fields the analyzer reads
(`args`, `kwonlyargs`, `vararg`, `kwarg`) and additionally `posonlyargs`,
which the real `ast.arguments` carries for positional-only parameters but
`analyze_function` never reads. -/
structure Arguments where
  posonlyargs : List String
  args : List String
  vararg : Option String
  kwonlyargs : List String
  kwarg : Option String
  deriving DecidableEq, Repr

mutual

/-- Python expressions, tagged with their source line. `otherExpr` stands
for any expression kind the analyzer has no specific test for (lambda,
comparisons, subscripts, ...), keeping its child expressions for the
generic traversal. -/
inductive Expr where
  | name (id : String) (lineno : Nat)
  | attribute (value : Expr) (attr : String) (lineno : Nat)
  | constant (value : Const) (lineno : Nat)
  | boolOp (values : List Expr) (lineno : Nat)
  | ifExp (test body orelse : Expr) (lineno : Nat)
  | call (func : Expr) (args : List Expr) (keywords : List Keyword) (lineno : Nat)
  | otherExpr (children : List Expr) (lineno : Nat)

/-- A keyword argument of a call: `arg` is `none` for a `**kwargs` splat. -/
inductive Keyword where
  | mk (arg : Option String) (value : Expr)

/-- Python statements, tagged with their source line.  `otherStmt` stands
for any statement kind the analyzer has no specific test for (return,
pass, expression statements, ...), keeping child expressions and child
statements for the generic traversal. -/
inductive Stmt where
  | functionDef (name : String) (args : Arguments) (body : List Stmt) (lineno : Nat)
  | asyncFunctionDef (name : String) (args : Arguments) (body : List Stmt) (lineno : Nat)
  | classDef (name : String) (body : List Stmt) (lineno : Nat)
  | assign (targets : List Expr) (value : Expr) (lineno : Nat)
  | ifStmt (test : Expr) (body orelse : List Stmt) (lineno : Nat)
  | whileStmt (test : Expr) (body orelse : List Stmt) (lineno : Nat)
  | forStmt (target iter : Expr) (body orelse : List Stmt) (lineno : Nat)
  | asyncForStmt (target iter : Expr) (body orelse : List Stmt) (lineno : Nat)
  | tryStmt (body : List Stmt) (handlers : List Handler) (orelse finalbody : List Stmt)
      (lineno : Nat)
  | withStmt (items : List Expr) (body : List Stmt) (lineno : Nat)
  | asyncWithStmt (items : List Expr) (body : List Stmt) (lineno : Nat)
  | otherStmt (exprs : List Expr) (body : List Stmt) (lineno : Nat)

/-- An `ast.ExceptHandler` clause. -/
inductive Handler where
  | mk (body : List Stmt) (lineno : Nat)

end

/-- `ast.Module`: the parsed tree is its list of top-level statements. -/
abbrev Module := List Stmt

mutual

/-- Sum of per-node complexity contributions over the whole subtree of an
expression, as seen by `ast.walk` in `analyze_function`: `BoolOp` adds
`len(values) - 1`, `IfExp` adds 1, all other expression kinds add 0. -/
def exprWalk : Expr → Nat
  | .name _ _ => 0
  | .attribute value _ _ => exprWalk value
  | .constant _ _ => 0
  | .boolOp values _ => (values.length - 1) + exprListWalk values
  | .ifExp t b o _ => 1 + (exprWalk t + (exprWalk b + exprWalk o))
  | .call f args kws _ => exprWalk f + (exprListWalk args + keywordListWalk kws)
  | .otherExpr children _ => exprListWalk children

def exprListWalk : List Expr → Nat
  | [] => 0
  | e :: es => exprWalk e + exprListWalk es

def keywordWalk : Keyword → Nat
  | .mk _ value => exprWalk value

def keywordListWalk : List Keyword → Nat
  | [] => 0
  | k :: ks => keywordWalk k + keywordListWalk ks

/-- Sum of per-node complexity contributions over the whole subtree of a
statement, as seen by `ast.walk` in `analyze_function`: `If`, `While`,
`For`, `AsyncFor`, `Try`, `ExceptHandler`, `With` and `AsyncWith` add 1
each; everything below them is also walked, including the bodies of nested
function definitions. -/
def stmtWalk : Stmt → Nat
  | .functionDef _ _ body _ => stmtListWalk body
  | .asyncFunctionDef _ _ body _ => stmtListWalk body
  | .classDef _ body _ => stmtListWalk body
  | .assign targets value _ => exprListWalk targets + exprWalk value
  | .ifStmt test body orelse _ => 1 + (exprWalk test + (stmtListWalk body + stmtListWalk orelse))
  | .whileStmt test body orelse _ =>
      1 + (exprWalk test + (stmtListWalk body + stmtListWalk orelse))
  | .forStmt target iter body orelse _ =>
      1 + (exprWalk target + (exprWalk iter + (stmtListWalk body + stmtListWalk orelse)))
  | .asyncForStmt target iter body orelse _ =>
      1 + (exprWalk target + (exprWalk iter + (stmtListWalk body + stmtListWalk orelse)))
  | .tryStmt body handlers orelse finalbody _ =>
      1 + (stmtListWalk body + (handlerListWalk handlers
        + (stmtListWalk orelse + stmtListWalk finalbody)))
  | .withStmt items body _ => 1 + (exprListWalk items + stmtListWalk body)
  | .asyncWithStmt items body _ => 1 + (exprListWalk items + stmtListWalk body)
  | .otherStmt exprs body _ => exprListWalk exprs + stmtListWalk body

def stmtListWalk : List Stmt → Nat
  | [] => 0
  | s :: ss => stmtWalk s + stmtListWalk ss

def handlerWalk : Handler → Nat
  | .mk body _ => 1 + stmtListWalk body

def handlerListWalk : List Handler → Nat
  | [] => 0
  | h :: hs => handlerWalk h + handlerListWalk hs

end

/-- A metric record, as emitted into `self.metrics`: the `type` key of the
Python dict is the constructor. -/
inductive MetricRecord where
  | functionRecord (name : String) (complexity : Nat) (parameters : Nat) (lineno : Nat)
  | classRecord (name : String) (methods : Nat) (lineno : Nat)
  deriving DecidableEq, Repr

namespace MetricsVisitor

/-- `MetricsVisitor.analyze_function`: complexity is 1 plus the sum of the
per-node contributions over everything `ast.walk(node)` yields (the
definition node itself and its `args` contribute 0, so only the body sum
remains); parameters is `len(args.args) + len(args.kwonlyargs)` plus one
for a present vararg and one for a present kwarg — `args.posonlyargs` is
not read. -/
def analyze_function (name : String) (args : Arguments) (body : List Stmt)
    (lineno : Nat) : MetricRecord :=
  .functionRecord name
    (1 + stmtListWalk body)
    (args.args.length + args.kwonlyargs.length
      + (if args.vararg.isSome then 1 else 0)
      + (if args.kwarg.isSome then 1 else 0))
    lineno

/-- The test `isinstance(n, (ast.FunctionDef, ast.AsyncFunctionDef))` used
by `visit_ClassDef` on the direct statements of a class body. -/
def is_method : Stmt → Bool
  | .functionDef _ _ _ _ => true
  | .asyncFunctionDef _ _ _ _ => true
  | _ => false

mutual

/-- The `MetricsVisitor` traversal in state-passing form: `acc` is
`self.metrics` so far; a handler appends its record and then
`generic_visit` recurses into the children.  Expressions contain no
definition nodes and the visitor has no expression handlers, so the
expression part of `generic_visit` appends nothing and is omitted. -/
def visitStmt (acc : List MetricRecord) : Stmt → List MetricRecord
  | .functionDef name args body lineno =>
      visitStmts (acc ++ [analyze_function name args body lineno]) body
  | .asyncFunctionDef name args body lineno =>
      visitStmts (acc ++ [analyze_function name args body lineno]) body
  | .classDef name body lineno =>
      visitStmts
        (acc ++ [.classRecord name ((body.filter is_method).length) lineno]) body
  | .assign _ _ _ => acc
  | .ifStmt _ body orelse _ => visitStmts (visitStmts acc body) orelse
  | .whileStmt _ body orelse _ => visitStmts (visitStmts acc body) orelse
  | .forStmt _ _ body orelse _ => visitStmts (visitStmts acc body) orelse
  | .asyncForStmt _ _ body orelse _ => visitStmts (visitStmts acc body) orelse
  | .tryStmt body handlers orelse finalbody _ =>
      visitStmts (visitStmts (visitHandlers (visitStmts acc body) handlers) orelse) finalbody
  | .withStmt _ body _ => visitStmts acc body
  | .asyncWithStmt _ body _ => visitStmts acc body
  | .otherStmt _ body _ => visitStmts acc body

def visitStmts (acc : List MetricRecord) : List Stmt → List MetricRecord
  | [] => acc
  | s :: ss => visitStmts (visitStmt acc s) ss

def visitHandlers (acc : List MetricRecord) : List Handler → List MetricRecord
  | [] => acc
  | .mk body _ :: hs => visitHandlers (visitStmts acc body) hs

end

/-- `visitor = MetricsVisitor(); visitor.visit(tree)`: the metrics list
after the full traversal of the module body, starting from the empty
`self.metrics`. -/
def run (tree : Module) : List MetricRecord := visitStmts [] tree

end MetricsVisitor

/-- A security finding, as appended to `self.issues`; every such dict also
carries the constant key `"type": "security"`, which we do not repeat in
each record. -/
structure SecurityFinding where
  issue : String
  name : String
  lineno : Nat
  message : String
  deriving DecidableEq, Repr

namespace SecurityVisitor

/-- `isinstance(node.value, ast.Constant) and isinstance(node.value.value, str)`. -/
def isStrConstant : Expr → Bool
  | .constant (.str _) _ => true
  | _ => false

/-- `isinstance(node.value, ast.Constant) and node.value.value == False`
(Python equality, so integer 0 also passes). -/
def isFalseConstant : Expr → Bool
  | .constant c _ => c.pyEqFalse
  | _ => false

/-- `isinstance(keyword.value, ast.Constant) and keyword.value.value == True`
(Python equality, so integer 1 also passes). -/
def isTrueConstant : Expr → Bool
  | .constant c _ => c.pyEqTrue
  | _ => false

/-- The body of the `for target in node.targets` loop of `visit_Assign`,
for one target: the three checks in source order (hardcoded `SECRET_KEY`,
hardcoded password/token names, CSRF disabled), each appending at most one
finding.  Non-`Name` targets match nothing. -/
def assignTargetIssues (value : Expr) (lineno : Nat) : Expr → List SecurityFinding
  | .name id _ =>
      (if id = "SECRET_KEY" ∧ isStrConstant value then
        [{ issue := "hardcoded_secret", name := "SECRET_KEY", lineno := lineno,
           message := "Hardcoded SECRET_KEY detected. Use environment variables instead." }]
      else [])
      ++ (if pyUpper id ∈ ["PASSWORD", "API_KEY", "TOKEN", "AUTH_TOKEN", "PRIVATE_KEY",
            "AWS_SECRET_KEY"] ∧ isStrConstant value then
        [{ issue := "hardcoded_secret", name := id, lineno := lineno,
           message := s!"Hardcoded {id} detected. Use environment variables instead." }]
      else [])
      ++ (if pyLower id ∈ ["csrf", "csrf_enabled", "wtf_csrf_enabled"] ∧ isFalseConstant value then
        [{ issue := "csrf_disabled", name := id, lineno := lineno,
           message := "CSRF protection is disabled. This is a security vulnerability." }]
      else [])
  | _ => []

/-- `visit_Assign` before its `generic_visit`: the target loop, in target
order. -/
def visit_Assign_issues (targets : List Expr) (value : Expr) (lineno : Nat) :
    List SecurityFinding :=
  targets.flatMap (assignTargetIssues value lineno)

/-- `func_name`: the bare name of a `Name` callee or the attribute of an
`Attribute` callee, else `None`. -/
def callFuncName : Expr → Option String
  | .name id _ => some id
  | .attribute _ attr _ => some attr
  | _ => none

/-- The eval/exec check of `visit_Call`. -/
def codeInjectionIssues (func : Expr) (lineno : Nat) : List SecurityFinding :=
  match callFuncName func with
  | some fn =>
      if fn = "eval" ∨ fn = "exec" then
        [{ issue := "code_injection", name := fn, lineno := lineno,
           message := s!"Use of {fn}() detected. This can lead to code injection vulnerabilities." }]
      else []
  | none => []

/-- The pickle check of `visit_Call`: `func_name in ('loads', 'load')`,
the callee is an `Attribute` (whose attribute is then `func_name`), and
its receiver is the bare name `pickle`. -/
def pickleIssues (func : Expr) (lineno : Nat) : List SecurityFinding :=
  match func with
  | .attribute (.name id _) attr _ =>
      if (attr = "loads" ∨ attr = "load") ∧ id = "pickle" then
        [{ issue := "insecure_deserialization", name := "pickle", lineno := lineno,
           message := "Pickle deserialization is unsafe. Use json instead for untrusted data." }]
      else []
  | _ => []

/-- The subprocess check of `visit_Call`: if `func_name` is one of the
subprocess entry points, loop over the keywords and append a finding for
each keyword literally named `shell` whose value is a constant equal to
`True` (Python equality, so integer 1 also passes). -/
def commandInjectionIssues (func : Expr) (keywords : List Keyword) (lineno : Nat) :
    List SecurityFinding :=
  match callFuncName func with
  | some fn =>
      if fn ∈ ["run", "call", "Popen", "check_output", "check_call"] then
        keywords.flatMap fun kw =>
          match kw with
          | .mk arg value =>
              if arg = some "shell" ∧ isTrueConstant value then
                [{ issue := "command_injection", name := fn, lineno := lineno,
                   message := "shell=True in subprocess can lead to command injection." }]
              else []
      else []
  | none => []

/-- `visit_Call` before its `generic_visit`: the three checks in source
order. -/
def visit_Call_issues (func : Expr) (keywords : List Keyword) (lineno : Nat) :
    List SecurityFinding :=
  codeInjectionIssues func lineno ++ pickleIssues func lineno
    ++ commandInjectionIssues func keywords lineno

mutual

/-- The structural `SecurityVisitor` traversal, returning the findings it
appends to `self.issues` in visitation order: each handled node's findings
first, then `generic_visit`'s recursion into the children in field
order. -/
def secExpr : Expr → List SecurityFinding
  | .name _ _ => []
  | .attribute value _ _ => secExpr value
  | .constant _ _ => []
  | .boolOp values _ => secExprList values
  | .ifExp t b o _ => secExpr t ++ (secExpr b ++ secExpr o)
  | .call func args kws lineno =>
      visit_Call_issues func kws lineno
        ++ (secExpr func ++ (secExprList args ++ secKeywordList kws))
  | .otherExpr children _ => secExprList children

def secExprList : List Expr → List SecurityFinding
  | [] => []
  | e :: es => secExpr e ++ secExprList es

def secKeyword : Keyword → List SecurityFinding
  | .mk _ value => secExpr value

def secKeywordList : List Keyword → List SecurityFinding
  | [] => []
  | k :: ks => secKeyword k ++ secKeywordList ks

def secStmt : Stmt → List SecurityFinding
  | .functionDef _ _ body _ => secStmtList body
  | .asyncFunctionDef _ _ body _ => secStmtList body
  | .classDef _ body _ => secStmtList body
  | .assign targets value lineno =>
      visit_Assign_issues targets value lineno
        ++ (secExprList targets ++ secExpr value)
  | .ifStmt test body orelse _ => secExpr test ++ (secStmtList body ++ secStmtList orelse)
  | .whileStmt test body orelse _ => secExpr test ++ (secStmtList body ++ secStmtList orelse)
  | .forStmt target iter body orelse _ =>
      secExpr target ++ (secExpr iter ++ (secStmtList body ++ secStmtList orelse))
  | .asyncForStmt target iter body orelse _ =>
      secExpr target ++ (secExpr iter ++ (secStmtList body ++ secStmtList orelse))
  | .tryStmt body handlers orelse finalbody _ =>
      secStmtList body ++ (secHandlerList handlers
        ++ (secStmtList orelse ++ secStmtList finalbody))
  | .withStmt items body _ => secExprList items ++ secStmtList body
  | .asyncWithStmt items body _ => secExprList items ++ secStmtList body
  | .otherStmt exprs body _ => secExprList exprs ++ secStmtList body

def secStmtList : List Stmt → List SecurityFinding
  | [] => []
  | s :: ss => secStmt s ++ secStmtList ss

def secHandler : Handler → List SecurityFinding
  | .mk body _ => secStmtList body

def secHandlerList : List Handler → List SecurityFinding
  | [] => []
  | h :: hs => secHandler h ++ secHandlerList hs

end

end SecurityVisitor

/-- One token of the (tiny) regular-expression fragment used by the four
SQL-injection patterns: a literal character, a character class, `\s*`
and `.*`. -/
inductive RTok where
  | lit (c : Char)
  | anyOf (cs : List Char)
  | wsStar
  | dotStar
  deriving DecidableEq, Repr

/-- The characters matched by `\s` (Python `re`, ASCII view). -/
def isPyWs (c : Char) : Bool :=
  c = ' ' || c = '\t' || c = '\n' || c = '\r' || c = '\x0b' || c = '\x0c'

/-- Match a token sequence against a prefix of the character list, with
backtracking for the starred tokens; the `fuel` argument only makes the
recursion structural (every step consumes a token or a character, so
`ts.length + xs.length + 1` fuel always suffices and the 0 case is never
reached).  Literal characters compare case-insensitively, reflecting
`re.IGNORECASE`; `.` matches anything but a newline. -/
def rmatchFuel : Nat → List RTok → List Char → Bool
  | 0, _, _ => false
  | _ + 1, [], _ => true
  | _ + 1, .lit _ :: _, [] => false
  | fuel + 1, .lit c :: ts, x :: xs => x.toLower = c.toLower && rmatchFuel fuel ts xs
  | _ + 1, .anyOf _ :: _, [] => false
  | fuel + 1, .anyOf cs :: ts, x :: xs => cs.contains x && rmatchFuel fuel ts xs
  | fuel + 1, .wsStar :: ts, [] => rmatchFuel fuel ts []
  | fuel + 1, .wsStar :: ts, x :: xs =>
      rmatchFuel fuel ts (x :: xs) || (isPyWs x && rmatchFuel fuel (.wsStar :: ts) xs)
  | fuel + 1, .dotStar :: ts, [] => rmatchFuel fuel ts []
  | fuel + 1, .dotStar :: ts, x :: xs =>
      rmatchFuel fuel ts (x :: xs) || (x ≠ '\n' && rmatchFuel fuel (.dotStar :: ts) xs)

/-- Match with adequate fuel. -/
def rmatch (ts : List RTok) (xs : List Char) : Bool :=
  rmatchFuel (ts.length + xs.length + 1) ts xs

/-- `re.search`: the pattern matches starting at some position of the
line. -/
def rsearch (ts : List RTok) : List Char → Bool
  | [] => rmatch ts []
  | x :: xs => rmatch ts (x :: xs) || rsearch ts xs

/-- A string of literal tokens (each letter case-insensitive under
`re.IGNORECASE`). -/
def lits (s : String) : List RTok := s.data.map RTok.lit

/-- The class `["\']`. -/
def quoteClass : RTok := .anyOf ['"', '\'']

namespace SecurityVisitor

/-- `execute\s*\(\s*["\'].*%s` -/
def sqlPattern1 : List RTok :=
  lits "execute" ++ [.wsStar, .lit '(', .wsStar, quoteClass, .dotStar] ++ lits "%s"

/-- `execute\s*\(\s*f["\']` -/
def sqlPattern2 : List RTok :=
  lits "execute" ++ [.wsStar, .lit '(', .wsStar, .lit 'f', quoteClass]

/-- `execute\s*\(\s*["\'].*\+` -/
def sqlPattern3 : List RTok :=
  lits "execute" ++ [.wsStar, .lit '(', .wsStar, quoteClass, .dotStar, .lit '+']

/-- `cursor\.execute\s*\(\s*["\'].*\.format\s*\(` -/
def sqlPattern4 : List RTok :=
  lits "cursor.execute" ++ [.wsStar, .lit '(', .wsStar, quoteClass, .dotStar]
    ++ lits ".format" ++ [.wsStar, .lit '(']

/-- The `sql_patterns` table of `check_sql_injection`. -/
def sql_patterns : List (List RTok × String) :=
  [(sqlPattern1, "SQL string formatting with %s"),
   (sqlPattern2, "SQL f-string"),
   (sqlPattern3, "SQL string concatenation"),
   (sqlPattern4, "SQL .format()")]

/-- The sql_injection finding for one pattern description at one line. -/
def sqlFinding (desc : String) (lineno : Nat) : SecurityFinding :=
  { issue := "sql_injection", name := desc, lineno := lineno,
    message := s!"Potential SQL injection: {desc}. Use parameterized queries." }

/-- The inner loop `for i, line in enumerate(self.lines, 1)` of
`check_sql_injection` for one pattern, started at line number `i`: one
finding per matching line, in line order. -/
def sqlScanLines (pat : List RTok) (desc : String) : Nat → List String → List SecurityFinding
  | _, [] => []
  | i, line :: rest =>
      (if rsearch pat line.data then [sqlFinding desc i] else [])
        ++ sqlScanLines pat desc (i + 1) rest

/-- `check_sql_injection`: the outer loop over the pattern table, each
iteration appending its line findings to `self.issues`. -/
def check_sql_injection (issues : List SecurityFinding) (lines : List String) :
    List SecurityFinding :=
  sql_patterns.foldl (fun acc p => acc ++ sqlScanLines p.1 p.2 1 lines) issues

/-- `SecurityVisitor(content)` followed by `.visit(tree)` and
`.check_sql_injection()`: `self.lines = content.split('\n')`; the final
contents of `self.issues`. -/
def run (content : String) (tree : Module) : List SecurityFinding :=
  check_sql_injection (secStmtList tree) (pySplitNl content)

end SecurityVisitor

/-- A Python exception as seen by the `try`/`except Exception` boundary of
`analyze_code`: either a `SyntaxError` from `ast.parse` (a parse failure
of the source text) or any other `Exception` subclass, each carrying its
`str(e)` rendering. -/
inductive PyExc where
  | syntaxError (msg : String)
  | otherError (msg : String)
  deriving DecidableEq, Repr

/-- `str(e)`. -/
def PyExc.str : PyExc → String
  | .syntaxError m => m
  | .otherError m => m

/-- The two result shapes of `analyze_code`: the `{"error": ...}` dict or
the `{"metrics": ..., "security": ...}` dict. -/
inductive Output where
  | failure (error : String)
  | success (metrics : List MetricRecord) (security : List SecurityFinding)
  deriving DecidableEq, Repr

/-- `analyze_code(content)`.  `ast.parse` is the external collaborator, so
the embedding takes its outcome as the argument `parseResult`; on an
exception the `except Exception` handler returns the error shape, and on a
tree the two visitors and the textual scan run and the success shape is
returned. -/
def analyze_code (content : String) (parseResult : Except PyExc Module) : Output :=
  match parseResult with
  | .error e => .failure e.str
  | .ok tree => .success (MetricsVisitor.run tree) (SecurityVisitor.run content tree)

/-- The `try` body of `analyze_code` with an exception oracle: besides the
parse outcome, `travExc` models an environment-caused exception raised
while the visitors or the scanner run (CPython can raise e.g.
`RecursionError` there on a deeply nested tree even after a successful
parse; the pure embedding itself cannot fail).  The body's value is either
the raised exception or the pair of result lists. -/
def analyze_body (content : String) (parseResult : Except PyExc Module)
    (travExc : Option PyExc) : Except PyExc (List MetricRecord × List SecurityFinding) :=
  match parseResult with
  | .error e => .error e
  | .ok tree =>
      match travExc with
      | some e => .error e
      | none => .ok (MetricsVisitor.run tree, SecurityVisitor.run content tree)

/-- `analyze_code` around its exception-oracle body: the single
`except Exception as e` clause turns ANY exception escaping the body into
`{"error": str(e)}`. -/
def analyze_code_exc (content : String) (parseResult : Except PyExc Module)
    (travExc : Option PyExc) : Output :=
  match analyze_body content parseResult travExc with
  | .error e => .failure e.str
  | .ok (metrics, security) => .success metrics security

/-! ## Specification-side definitions

The definitions below transcribe the *claims'* wording, independently of
the analyzer's single-pass implementations, so that the refinement
theorems can compare the two. -/

/-- A complexity-relevant node occurrence, per the spec's complexity rule:
a conditional branch / loop / exception-try / handler clause /
context-management block, a conditional (ternary) expression, or a boolean
AND/OR expression together with its operand count. -/
inductive CxNode where
  | branch
  | ternary
  | boolop (operands : Nat)
  deriving DecidableEq, Repr

def CxNode.isBranch : CxNode → Bool
  | .branch => true
  | _ => false

def CxNode.isTernary : CxNode → Bool
  | .ternary => true
  | _ => false

def CxNode.operandCount : CxNode → Option Nat
  | .boolop n => some n
  | _ => none

mutual

/-- All complexity-relevant node occurrences in the subtree of an
expression. -/
def cxExpr : Expr → List CxNode
  | .name _ _ => []
  | .attribute value _ _ => cxExpr value
  | .constant _ _ => []
  | .boolOp values _ => .boolop values.length :: cxExprList values
  | .ifExp t b o _ => .ternary :: (cxExpr t ++ (cxExpr b ++ cxExpr o))
  | .call f args kws _ => cxExpr f ++ (cxExprList args ++ cxKeywordList kws)
  | .otherExpr children _ => cxExprList children

def cxExprList : List Expr → List CxNode
  | [] => []
  | e :: es => cxExpr e ++ cxExprList es

def cxKeyword : Keyword → List CxNode
  | .mk _ value => cxExpr value

def cxKeywordList : List Keyword → List CxNode
  | [] => []
  | k :: ks => cxKeyword k ++ cxKeywordList ks

/-- All complexity-relevant node occurrences in the subtree of a
statement; the entire subtree is walked, including the bodies of nested
function definitions. -/
def cxStmt : Stmt → List CxNode
  | .functionDef _ _ body _ => cxStmtList body
  | .asyncFunctionDef _ _ body _ => cxStmtList body
  | .classDef _ body _ => cxStmtList body
  | .assign targets value _ => cxExprList targets ++ cxExpr value
  | .ifStmt test body orelse _ => .branch :: (cxExpr test ++ (cxStmtList body ++ cxStmtList orelse))
  | .whileStmt test body orelse _ =>
      .branch :: (cxExpr test ++ (cxStmtList body ++ cxStmtList orelse))
  | .forStmt target iter body orelse _ =>
      .branch :: (cxExpr target ++ (cxExpr iter ++ (cxStmtList body ++ cxStmtList orelse)))
  | .asyncForStmt target iter body orelse _ =>
      .branch :: (cxExpr target ++ (cxExpr iter ++ (cxStmtList body ++ cxStmtList orelse)))
  | .tryStmt body handlers orelse finalbody _ =>
      .branch :: (cxStmtList body ++ (cxHandlerList handlers
        ++ (cxStmtList orelse ++ cxStmtList finalbody)))
  | .withStmt items body _ => .branch :: (cxExprList items ++ cxStmtList body)
  | .asyncWithStmt items body _ => .branch :: (cxExprList items ++ cxStmtList body)
  | .otherStmt exprs body _ => cxExprList exprs ++ cxStmtList body

def cxStmtList : List Stmt → List CxNode
  | [] => []
  | s :: ss => cxStmt s ++ cxStmtList ss

def cxHandler : Handler → List CxNode
  | .mk body _ => .branch :: cxStmtList body

def cxHandlerList : List Handler → List CxNode
  | [] => []
  | h :: hs => cxHandler h ++ cxHandlerList hs

end

/-- The claim's complexity formula for a definition with body `body`:
1, plus 1 for each conditional branch / loop / try / handler /
context-management block, plus 1 for each conditional expression, plus
(N − 1) for each boolean expression with N operands, over the entire
subtree. -/
def claimComplexity (body : List Stmt) : Nat :=
  1 + ((cxStmtList body).filter CxNode.isBranch).length
    + ((cxStmtList body).filter CxNode.isTernary).length
    + (((cxStmtList body).filterMap CxNode.operandCount).map (· - 1)).sum

/-- The value of one complexity-relevant occurrence; `claimComplexity`
is 1 plus the sum of these. -/
def CxNode.value : CxNode → Nat
  | .branch => 1
  | .ternary => 1
  | .boolop n => n - 1

/-- The claim's parameter-count formula (C3): positional parameters
*including positional-only ones* and those with defaults, plus
keyword-only parameters, plus one per variadic parameter. -/
def claimParameterCount (args : Arguments) : Nat :=
  (args.posonlyargs.length + args.args.length) + args.kwonlyargs.length
    + (if args.vararg.isSome then 1 else 0)
    + (if args.kwarg.isSome then 1 else 0)

/-- "The assigned value is the literal boolean false" (C4, as stated). -/
def isBoolFalseLiteral : Expr → Bool
  | .constant (.boolC false) _ => true
  | _ => false

/-- The amended C4 value test: a literal constant that compares equal to
`False` under Python equality — the boolean `false` or the integer 0. -/
def claimEqFalseValue : Expr → Bool
  | .constant (.boolC false) _ => true
  | .constant (.intC 0) _ => true
  | _ => false

/-- A simple-name assignment target matching the CSRF rule for the given
assigned value, per the (amended) claim. -/
def csrfTargetMatch (value : Expr) : Expr → Bool
  | .name id _ =>
      decide (pyLower id ∈ ["csrf", "csrf_enabled", "wtf_csrf_enabled"])
        && claimEqFalseValue value
  | _ => false

/-- A simple-name assignment target matching the hardcoded-secret rule for
the given assigned value. -/
def secretTargetMatch (value : Expr) : Expr → Bool
  | .name id _ =>
      (decide (id = "SECRET_KEY")
        || decide (pyUpper id ∈ ["PASSWORD", "API_KEY", "TOKEN", "AUTH_TOKEN",
             "PRIVATE_KEY", "AWS_SECRET_KEY"]))
        && SecurityVisitor.isStrConstant value
  | _ => false

/-- The csrf_disabled finding the claim predicts for a matching target
named `id` at line `lineno`. -/
def claimCsrfFinding (id : String) (lineno : Nat) : SecurityFinding :=
  { issue := "csrf_disabled", name := id, lineno := lineno,
    message := "CSRF protection is disabled. This is a security vulnerability." }

/-- The code_injection finding the claim predicts for a callee named `fn`
at line `lineno`. -/
def claimCodeInjectionFinding (fn : String) (lineno : Nat) : SecurityFinding :=
  { issue := "code_injection", name := fn, lineno := lineno,
    message := s!"Use of {fn}() detected. This can lead to code injection vulnerabilities." }

/-- The claim's code-injection rule (C5) applied to one call site (its
callee expression and line): a bare name `eval`/`exec`, or an attribute
access whose attribute name is `eval`/`exec`, yields the finding. -/
def claimCallInjection : Expr × Nat → Option SecurityFinding
  | (.name id _, lineno) =>
      if id = "eval" ∨ id = "exec" then some (claimCodeInjectionFinding id lineno) else none
  | (.attribute _ attr _, lineno) =>
      if attr = "eval" ∨ attr = "exec" then some (claimCodeInjectionFinding attr lineno) else none
  | _ => none

mutual

/-- Every call site — (callee expression, line) of every `Call` node — in
the subtree of an expression, in visitation order. -/
def callSitesExpr : Expr → List (Expr × Nat)
  | .name _ _ => []
  | .attribute value _ _ => callSitesExpr value
  | .constant _ _ => []
  | .boolOp values _ => callSitesExprList values
  | .ifExp t b o _ => callSitesExpr t ++ (callSitesExpr b ++ callSitesExpr o)
  | .call f args kws lineno =>
      (f, lineno) :: (callSitesExpr f ++ (callSitesExprList args ++ callSitesKeywordList kws))
  | .otherExpr children _ => callSitesExprList children

def callSitesExprList : List Expr → List (Expr × Nat)
  | [] => []
  | e :: es => callSitesExpr e ++ callSitesExprList es

def callSitesKeyword : Keyword → List (Expr × Nat)
  | .mk _ value => callSitesExpr value

def callSitesKeywordList : List Keyword → List (Expr × Nat)
  | [] => []
  | k :: ks => callSitesKeyword k ++ callSitesKeywordList ks

/-- Every call site in the subtree of a statement, in visitation order. -/
def callSitesStmt : Stmt → List (Expr × Nat)
  | .functionDef _ _ body _ => callSitesStmtList body
  | .asyncFunctionDef _ _ body _ => callSitesStmtList body
  | .classDef _ body _ => callSitesStmtList body
  | .assign targets value _ => callSitesExprList targets ++ callSitesExpr value
  | .ifStmt test body orelse _ =>
      callSitesExpr test ++ (callSitesStmtList body ++ callSitesStmtList orelse)
  | .whileStmt test body orelse _ =>
      callSitesExpr test ++ (callSitesStmtList body ++ callSitesStmtList orelse)
  | .forStmt target iter body orelse _ =>
      callSitesExpr target ++ (callSitesExpr iter
        ++ (callSitesStmtList body ++ callSitesStmtList orelse))
  | .asyncForStmt target iter body orelse _ =>
      callSitesExpr target ++ (callSitesExpr iter
        ++ (callSitesStmtList body ++ callSitesStmtList orelse))
  | .tryStmt body handlers orelse finalbody _ =>
      callSitesStmtList body ++ (callSitesHandlerList handlers
        ++ (callSitesStmtList orelse ++ callSitesStmtList finalbody))
  | .withStmt items body _ => callSitesExprList items ++ callSitesStmtList body
  | .asyncWithStmt items body _ => callSitesExprList items ++ callSitesStmtList body
  | .otherStmt exprs body _ => callSitesExprList exprs ++ callSitesStmtList body

def callSitesStmtList : List Stmt → List (Expr × Nat)
  | [] => []
  | s :: ss => callSitesStmt s ++ callSitesStmtList ss

def callSitesHandler : Handler → List (Expr × Nat)
  | .mk body _ => callSitesStmtList body

def callSitesHandlerList : List Handler → List (Expr × Nat)
  | [] => []
  | h :: hs => callSitesHandler h ++ callSitesHandlerList hs

end

mutual

/-- The spec-side pre-order record sequence (C8): a definition node's own
record first, then the records of its body, in order. -/
def recordsStmt : Stmt → List MetricRecord
  | .functionDef name args body lineno =>
      MetricsVisitor.analyze_function name args body lineno :: recordsStmtList body
  | .asyncFunctionDef name args body lineno =>
      MetricsVisitor.analyze_function name args body lineno :: recordsStmtList body
  | .classDef name body lineno =>
      MetricRecord.classRecord name ((body.filter MetricsVisitor.is_method).length) lineno
        :: recordsStmtList body
  | .assign _ _ _ => []
  | .ifStmt _ body orelse _ => recordsStmtList body ++ recordsStmtList orelse
  | .whileStmt _ body orelse _ => recordsStmtList body ++ recordsStmtList orelse
  | .forStmt _ _ body orelse _ => recordsStmtList body ++ recordsStmtList orelse
  | .asyncForStmt _ _ body orelse _ => recordsStmtList body ++ recordsStmtList orelse
  | .tryStmt body handlers orelse finalbody _ =>
      recordsStmtList body ++ (recordsHandlerList handlers
        ++ (recordsStmtList orelse ++ recordsStmtList finalbody))
  | .withStmt _ body _ => recordsStmtList body
  | .asyncWithStmt _ body _ => recordsStmtList body
  | .otherStmt _ body _ => recordsStmtList body

def recordsStmtList : List Stmt → List MetricRecord
  | [] => []
  | s :: ss => recordsStmt s ++ recordsStmtList ss

def recordsHandlerList : List Handler → List MetricRecord
  | [] => []
  | .mk body _ :: hs => recordsStmtList body ++ recordsHandlerList hs

end

mutual

/-- Every node's line in the subtree of an expression lies within
`[1, n]` — the well-formedness the parser guarantees for a tree built
from an `n`-line source. -/
def linesOkExpr (n : Nat) : Expr → Bool
  | .name _ lineno => 1 ≤ lineno && lineno ≤ n
  | .attribute value _ lineno => (1 ≤ lineno && lineno ≤ n) && linesOkExpr n value
  | .constant _ lineno => 1 ≤ lineno && lineno ≤ n
  | .boolOp values lineno => (1 ≤ lineno && lineno ≤ n) && linesOkExprList n values
  | .ifExp t b o lineno =>
      (1 ≤ lineno && lineno ≤ n)
        && (linesOkExpr n t && (linesOkExpr n b && linesOkExpr n o))
  | .call f args kws lineno =>
      (1 ≤ lineno && lineno ≤ n)
        && (linesOkExpr n f && (linesOkExprList n args && linesOkKeywordList n kws))
  | .otherExpr children lineno => (1 ≤ lineno && lineno ≤ n) && linesOkExprList n children

def linesOkExprList (n : Nat) : List Expr → Bool
  | [] => true
  | e :: es => linesOkExpr n e && linesOkExprList n es

def linesOkKeyword (n : Nat) : Keyword → Bool
  | .mk _ value => linesOkExpr n value

def linesOkKeywordList (n : Nat) : List Keyword → Bool
  | [] => true
  | k :: ks => linesOkKeyword n k && linesOkKeywordList n ks

def linesOkStmt (n : Nat) : Stmt → Bool
  | .functionDef _ _ body lineno => (1 ≤ lineno && lineno ≤ n) && linesOkStmtList n body
  | .asyncFunctionDef _ _ body lineno => (1 ≤ lineno && lineno ≤ n) && linesOkStmtList n body
  | .classDef _ body lineno => (1 ≤ lineno && lineno ≤ n) && linesOkStmtList n body
  | .assign targets value lineno =>
      (1 ≤ lineno && lineno ≤ n) && (linesOkExprList n targets && linesOkExpr n value)
  | .ifStmt test body orelse lineno =>
      (1 ≤ lineno && lineno ≤ n)
        && (linesOkExpr n test && (linesOkStmtList n body && linesOkStmtList n orelse))
  | .whileStmt test body orelse lineno =>
      (1 ≤ lineno && lineno ≤ n)
        && (linesOkExpr n test && (linesOkStmtList n body && linesOkStmtList n orelse))
  | .forStmt target iter body orelse lineno =>
      (1 ≤ lineno && lineno ≤ n)
        && (linesOkExpr n target && (linesOkExpr n iter
          && (linesOkStmtList n body && linesOkStmtList n orelse)))
  | .asyncForStmt target iter body orelse lineno =>
      (1 ≤ lineno && lineno ≤ n)
        && (linesOkExpr n target && (linesOkExpr n iter
          && (linesOkStmtList n body && linesOkStmtList n orelse)))
  | .tryStmt body handlers orelse finalbody lineno =>
      (1 ≤ lineno && lineno ≤ n)
        && (linesOkStmtList n body && (linesOkHandlerList n handlers
          && (linesOkStmtList n orelse && linesOkStmtList n finalbody)))
  | .withStmt items body lineno =>
      (1 ≤ lineno && lineno ≤ n) && (linesOkExprList n items && linesOkStmtList n body)
  | .asyncWithStmt items body lineno =>
      (1 ≤ lineno && lineno ≤ n) && (linesOkExprList n items && linesOkStmtList n body)
  | .otherStmt exprs body lineno =>
      (1 ≤ lineno && lineno ≤ n) && (linesOkExprList n exprs && linesOkStmtList n body)

def linesOkStmtList (n : Nat) : List Stmt → Bool
  | [] => true
  | s :: ss => linesOkStmt n s && linesOkStmtList n ss

def linesOkHandler (n : Nat) : Handler → Bool
  | .mk body lineno => (1 ≤ lineno && lineno ≤ n) && linesOkStmtList n body

def linesOkHandlerList (n : Nat) : List Handler → Bool
  | [] => true
  | h :: hs => linesOkHandler n h && linesOkHandlerList n hs

end

/-- The number of lines of the source, as the analyzer sees it:
`len(content.split('\n'))`. -/
def lineCount (content : String) : Nat := (pySplitNl content).length

/-- Field access used to state the metric claims: the complexity reported
by a function record. -/
def MetricRecord.complexity : MetricRecord → Option Nat
  | .functionRecord _ c _ _ => some c
  | .classRecord _ _ _ => none

/-- Field access used to state the metric claims: the parameter count
reported by a function record. -/
def MetricRecord.parameters : MetricRecord → Option Nat
  | .functionRecord _ _ p _ => some p
  | .classRecord _ _ _ => none

/-- The filtering predicate `f.issue == kind`, used to isolate one rule's
findings. -/
def hasIssue (kind : String) (f : SecurityFinding) : Bool := f.issue == kind

/-- The (amended) C4 rule applied to one assignment target: a simple name
in the CSRF set assigned a false-equal constant yields the csrf_disabled
finding. -/
def claimCsrfOfTarget (value : Expr) (lineno : Nat) : Expr → Option SecurityFinding
  | .name id _ =>
      if pyLower id ∈ ["csrf", "csrf_enabled", "wtf_csrf_enabled"] ∧ claimEqFalseValue value then
        some (claimCsrfFinding id lineno)
      else none
  | _ => none

/-- The hardcoded_secret finding for a matching target named `id` at line
`lineno` (for `SECRET_KEY` itself the fixed message of the first branch
coincides with this interpolation). -/
def claimSecretFinding (id : String) (lineno : Nat) : SecurityFinding :=
  { issue := "hardcoded_secret", name := id, lineno := lineno,
    message := s!"Hardcoded {id} detected. Use environment variables instead." }

/-- The (amended) hardcoded-secret rule applied to one assignment target. -/
def claimSecretOfTarget (value : Expr) (lineno : Nat) : Expr → Option SecurityFinding
  | .name id l =>
      if secretTargetMatch value (.name id l) then some (claimSecretFinding id lineno) else none
  | _ => none

/-! ## Helper lemmas: the single-pass walk sum equals the sum over the
occurrence list -/

mutual

theorem exprWalk_eq : ∀ e : Expr, exprWalk e = ((cxExpr e).map CxNode.value).sum
  | .name _ _ => rfl
  | .attribute v _ _ => by
      simp only [exprWalk, cxExpr]; exact exprWalk_eq v
  | .constant _ _ => rfl
  | .boolOp values _ => by
      simp only [exprWalk, cxExpr, List.map_cons, List.sum_cons, CxNode.value,
        exprListWalk_eq values]
  | .ifExp t b o _ => by
      simp only [exprWalk, cxExpr, List.map_cons, List.sum_cons, List.map_append,
        List.sum_append, CxNode.value, exprWalk_eq t, exprWalk_eq b, exprWalk_eq o]
  | .call f args kws _ => by
      simp only [exprWalk, cxExpr, List.map_append, List.sum_append,
        exprWalk_eq f, exprListWalk_eq args, keywordListWalk_eq kws]
  | .otherExpr children _ => by
      simp only [exprWalk, cxExpr]; exact exprListWalk_eq children

theorem exprListWalk_eq : ∀ es : List Expr,
    exprListWalk es = ((cxExprList es).map CxNode.value).sum
  | [] => rfl
  | e :: es => by
      simp only [exprListWalk, cxExprList, List.map_append, List.sum_append,
        exprWalk_eq e, exprListWalk_eq es]

theorem keywordWalk_eq : ∀ k : Keyword, keywordWalk k = ((cxKeyword k).map CxNode.value).sum
  | .mk _ value => by
      simp only [keywordWalk, cxKeyword]; exact exprWalk_eq value

theorem keywordListWalk_eq : ∀ ks : List Keyword,
    keywordListWalk ks = ((cxKeywordList ks).map CxNode.value).sum
  | [] => rfl
  | k :: ks => by
      simp only [keywordListWalk, cxKeywordList, List.map_append, List.sum_append,
        keywordWalk_eq k, keywordListWalk_eq ks]

theorem stmtWalk_eq : ∀ s : Stmt, stmtWalk s = ((cxStmt s).map CxNode.value).sum
  | .functionDef _ _ body _ => by
      simp only [stmtWalk, cxStmt]; exact stmtListWalk_eq body
  | .asyncFunctionDef _ _ body _ => by
      simp only [stmtWalk, cxStmt]; exact stmtListWalk_eq body
  | .classDef _ body _ => by
      simp only [stmtWalk, cxStmt]; exact stmtListWalk_eq body
  | .assign targets value _ => by
      simp only [stmtWalk, cxStmt, List.map_append, List.sum_append,
        exprListWalk_eq targets, exprWalk_eq value]
  | .ifStmt test body orelse _ => by
      simp only [stmtWalk, cxStmt, List.map_cons, List.sum_cons, List.map_append,
        List.sum_append, CxNode.value, exprWalk_eq test, stmtListWalk_eq body,
        stmtListWalk_eq orelse]
  | .whileStmt test body orelse _ => by
      simp only [stmtWalk, cxStmt, List.map_cons, List.sum_cons, List.map_append,
        List.sum_append, CxNode.value, exprWalk_eq test, stmtListWalk_eq body,
        stmtListWalk_eq orelse]
  | .forStmt target iter body orelse _ => by
      simp only [stmtWalk, cxStmt, List.map_cons, List.sum_cons, List.map_append,
        List.sum_append, CxNode.value, exprWalk_eq target, exprWalk_eq iter,
        stmtListWalk_eq body, stmtListWalk_eq orelse]
  | .asyncForStmt target iter body orelse _ => by
      simp only [stmtWalk, cxStmt, List.map_cons, List.sum_cons, List.map_append,
        List.sum_append, CxNode.value, exprWalk_eq target, exprWalk_eq iter,
        stmtListWalk_eq body, stmtListWalk_eq orelse]
  | .tryStmt body handlers orelse finalbody _ => by
      simp only [stmtWalk, cxStmt, List.map_cons, List.sum_cons, List.map_append,
        List.sum_append, CxNode.value, stmtListWalk_eq body, handlerListWalk_eq handlers,
        stmtListWalk_eq orelse, stmtListWalk_eq finalbody]
  | .withStmt items body _ => by
      simp only [stmtWalk, cxStmt, List.map_cons, List.sum_cons, List.map_append,
        List.sum_append, CxNode.value, exprListWalk_eq items, stmtListWalk_eq body]
  | .asyncWithStmt items body _ => by
      simp only [stmtWalk, cxStmt, List.map_cons, List.sum_cons, List.map_append,
        List.sum_append, CxNode.value, exprListWalk_eq items, stmtListWalk_eq body]
  | .otherStmt exprs body _ => by
      simp only [stmtWalk, cxStmt, List.map_append, List.sum_append,
        exprListWalk_eq exprs, stmtListWalk_eq body]

theorem stmtListWalk_eq : ∀ ss : List Stmt,
    stmtListWalk ss = ((cxStmtList ss).map CxNode.value).sum
  | [] => rfl
  | s :: ss => by
      simp only [stmtListWalk, cxStmtList, List.map_append, List.sum_append,
        stmtWalk_eq s, stmtListWalk_eq ss]

theorem handlerWalk_eq : ∀ h : Handler, handlerWalk h = ((cxHandler h).map CxNode.value).sum
  | .mk body _ => by
      simp only [handlerWalk, cxHandler, List.map_cons, List.sum_cons, CxNode.value,
        stmtListWalk_eq body]

theorem handlerListWalk_eq : ∀ hs : List Handler,
    handlerListWalk hs = ((cxHandlerList hs).map CxNode.value).sum
  | [] => rfl
  | h :: hs => by
      simp only [handlerListWalk, cxHandlerList, List.map_append, List.sum_append,
        handlerWalk_eq h, handlerListWalk_eq hs]

end

/-- Splitting the value sum of an occurrence list into the claim's three
summands. -/
theorem cx_sum_split (l : List CxNode) :
    (l.map CxNode.value).sum
      = (l.filter CxNode.isBranch).length + (l.filter CxNode.isTernary).length
        + ((l.filterMap CxNode.operandCount).map (· - 1)).sum := by
  induction l with
  | nil => rfl
  | cons x xs ih =>
      cases x <;>
        simp only [List.map_cons, List.sum_cons, List.filter_cons, List.filterMap_cons,
          CxNode.isBranch, CxNode.isTernary, CxNode.operandCount, CxNode.value, ih] <;>
        simp <;> omega

/-! ## Helper lemmas: the state-passing metrics traversal is append-only
and emits the pre-order record sequence -/

mutual

theorem visitStmt_append : ∀ (acc : List MetricRecord) (s : Stmt),
    MetricsVisitor.visitStmt acc s = acc ++ recordsStmt s
  | acc, .functionDef name args body lineno => by
      simp only [MetricsVisitor.visitStmt, recordsStmt,
        visitStmts_append (acc ++ [MetricsVisitor.analyze_function name args body lineno]) body,
        List.append_assoc, List.singleton_append]
  | acc, .asyncFunctionDef name args body lineno => by
      simp only [MetricsVisitor.visitStmt, recordsStmt,
        visitStmts_append (acc ++ [MetricsVisitor.analyze_function name args body lineno]) body,
        List.append_assoc, List.singleton_append]
  | acc, .classDef name body lineno => by
      simp only [MetricsVisitor.visitStmt, recordsStmt,
        visitStmts_append
          (acc ++ [MetricRecord.classRecord name
            ((body.filter MetricsVisitor.is_method).length) lineno]) body,
        List.append_assoc, List.singleton_append]
  | acc, .assign _ _ _ => by
      simp [MetricsVisitor.visitStmt, recordsStmt]
  | acc, .ifStmt _ body orelse _ => by
      simp only [MetricsVisitor.visitStmt, recordsStmt, visitStmts_append acc body,
        visitStmts_append (acc ++ recordsStmtList body) orelse, List.append_assoc]
  | acc, .whileStmt _ body orelse _ => by
      simp only [MetricsVisitor.visitStmt, recordsStmt, visitStmts_append acc body,
        visitStmts_append (acc ++ recordsStmtList body) orelse, List.append_assoc]
  | acc, .forStmt _ _ body orelse _ => by
      simp only [MetricsVisitor.visitStmt, recordsStmt, visitStmts_append acc body,
        visitStmts_append (acc ++ recordsStmtList body) orelse, List.append_assoc]
  | acc, .asyncForStmt _ _ body orelse _ => by
      simp only [MetricsVisitor.visitStmt, recordsStmt, visitStmts_append acc body,
        visitStmts_append (acc ++ recordsStmtList body) orelse, List.append_assoc]
  | acc, .tryStmt body handlers orelse finalbody _ => by
      have h1 := visitStmts_append acc body
      have h2 := visitHandlers_append (MetricsVisitor.visitStmts acc body) handlers
      have h3 := visitStmts_append
        (MetricsVisitor.visitHandlers (MetricsVisitor.visitStmts acc body) handlers) orelse
      have h4 := visitStmts_append
        (MetricsVisitor.visitStmts
          (MetricsVisitor.visitHandlers (MetricsVisitor.visitStmts acc body) handlers) orelse)
        finalbody
      show MetricsVisitor.visitStmts
          (MetricsVisitor.visitStmts
            (MetricsVisitor.visitHandlers (MetricsVisitor.visitStmts acc body) handlers) orelse)
          finalbody = _
      rw [h4, h3, h2, h1]
      simp [recordsStmt, List.append_assoc]
  | acc, .withStmt _ body _ => by
      simp only [MetricsVisitor.visitStmt, recordsStmt, visitStmts_append acc body]
  | acc, .asyncWithStmt _ body _ => by
      simp only [MetricsVisitor.visitStmt, recordsStmt, visitStmts_append acc body]
  | acc, .otherStmt _ body _ => by
      simp only [MetricsVisitor.visitStmt, recordsStmt, visitStmts_append acc body]

theorem visitStmts_append : ∀ (acc : List MetricRecord) (ss : List Stmt),
    MetricsVisitor.visitStmts acc ss = acc ++ recordsStmtList ss
  | acc, [] => by simp [MetricsVisitor.visitStmts, recordsStmtList]
  | acc, s :: ss => by
      simp only [MetricsVisitor.visitStmts, recordsStmtList, visitStmt_append acc s,
        visitStmts_append (acc ++ recordsStmt s) ss, List.append_assoc]

theorem visitHandlers_append : ∀ (acc : List MetricRecord) (hs : List Handler),
    MetricsVisitor.visitHandlers acc hs = acc ++ recordsHandlerList hs
  | acc, [] => by simp [MetricsVisitor.visitHandlers, recordsHandlerList]
  | acc, .mk body lineno :: hs => by
      simp only [MetricsVisitor.visitHandlers, recordsHandlerList, visitStmts_append acc body,
        visitHandlers_append (acc ++ recordsStmtList body) hs, List.append_assoc]

end

/-! ## Helper lemmas: per-node characterizations of the security
handlers -/

theorem isFalseConstant_eq_claim : ∀ v : Expr,
    SecurityVisitor.isFalseConstant v = claimEqFalseValue v
  | .constant c _ => by
      cases c with
      | str s => rfl
      | boolC b => cases b <;> rfl
      | intC n =>
          cases n with
          | ofNat m => cases m <;> rfl
          | negSucc m => rfl
      | noneC => rfl
  | .name _ _ => rfl
  | .attribute _ _ _ => rfl
  | .boolOp _ _ => rfl
  | .ifExp _ _ _ _ => rfl
  | .call _ _ _ _ => rfl
  | .otherExpr _ _ => rfl

theorem filter_ite_singleton (P : SecurityFinding → Bool) (c : Prop) [Decidable c]
    (f : SecurityFinding) :
    (if c then [f] else []).filter P = if c ∧ P f = true then [f] else [] := by
  by_cases hc : c
  · by_cases hp : P f = true <;> simp [hc, hp, List.filter]
  · simp [hc]

theorem assignTarget_csrf_filter : ∀ (value : Expr) (lineno : Nat) (t : Expr),
    (SecurityVisitor.assignTargetIssues value lineno t).filter (hasIssue "csrf_disabled")
      = (claimCsrfOfTarget value lineno t).toList
  | value, lineno, .name id l2 => by
      simp only [SecurityVisitor.assignTargetIssues, claimCsrfOfTarget, List.filter_append,
        filter_ite_singleton, ← isFalseConstant_eq_claim]
      simp only [hasIssue]
      simp
      split <;> simp [claimCsrfFinding]
  | _, _, .constant _ _ => rfl
  | _, _, .attribute _ _ _ => rfl
  | _, _, .boolOp _ _ => rfl
  | _, _, .ifExp _ _ _ _ => rfl
  | _, _, .call _ _ _ _ => rfl
  | _, _, .otherExpr _ _ => rfl

theorem assignTarget_secret_filter : ∀ (value : Expr) (lineno : Nat) (t : Expr),
    (SecurityVisitor.assignTargetIssues value lineno t).filter (hasIssue "hardcoded_secret")
      = (match t with
          | .name id _ =>
              if secretTargetMatch value t then [claimSecretFinding id lineno] else []
          | _ => [])
  | value, lineno, .name id l2 => by
      simp only [SecurityVisitor.assignTargetIssues, List.filter_append,
        filter_ite_singleton]
      by_cases h1 : id = "SECRET_KEY"
      · subst h1
        by_cases hs : SecurityVisitor.isStrConstant value = true
        · simp [hasIssue, secretTargetMatch, hs, claimSecretFinding]
          decide
        · simp [hasIssue, secretTargetMatch, hs]
      · by_cases h2 : pyUpper id ∈ ["PASSWORD", "API_KEY", "TOKEN", "AUTH_TOKEN",
            "PRIVATE_KEY", "AWS_SECRET_KEY"] <;>
          by_cases hs : SecurityVisitor.isStrConstant value = true <;>
            simp [hasIssue, secretTargetMatch, h1, h2, hs, claimSecretFinding]
  | _, _, .constant _ _ => rfl
  | _, _, .attribute _ _ _ => rfl
  | _, _, .boolOp _ _ => rfl
  | _, _, .ifExp _ _ _ _ => rfl
  | _, _, .call _ _ _ _ => rfl
  | _, _, .otherExpr _ _ => rfl

theorem visit_Assign_issue_mem (targets : List Expr) (value : Expr) (lineno : Nat) :
    ∀ x ∈ SecurityVisitor.visit_Assign_issues targets value lineno,
      (x.issue = "hardcoded_secret" ∨ x.issue = "csrf_disabled") ∧ x.lineno = lineno := by
  intro x hx
  simp only [SecurityVisitor.visit_Assign_issues, List.mem_flatMap] at hx
  obtain ⟨t, -, hx⟩ := hx
  cases t
  case name id l2 =>
    simp only [SecurityVisitor.assignTargetIssues, List.mem_append] at hx
    rcases hx with (h | h) | h <;> split at h <;> simp_all
  all_goals simp [SecurityVisitor.assignTargetIssues] at hx

theorem codeInjection_eq_claim : ∀ (f : Expr) (lineno : Nat),
    SecurityVisitor.codeInjectionIssues f lineno = (claimCallInjection (f, lineno)).toList
  | .name id _, lineno => by
      simp only [SecurityVisitor.codeInjectionIssues, SecurityVisitor.callFuncName,
        claimCallInjection]
      split <;> rfl
  | .attribute v attr _, lineno => by
      simp only [SecurityVisitor.codeInjectionIssues, SecurityVisitor.callFuncName,
        claimCallInjection]
      split <;> rfl
  | .constant _ _, _ => rfl
  | .boolOp _ _, _ => rfl
  | .ifExp _ _ _ _, _ => rfl
  | .call _ _ _ _, _ => rfl
  | .otherExpr _ _, _ => rfl

theorem codeInjectionIssues_mem (f : Expr) (lineno : Nat) :
    ∀ x ∈ SecurityVisitor.codeInjectionIssues f lineno,
      x.issue = "code_injection" ∧ x.lineno = lineno := by
  intro x hx
  unfold SecurityVisitor.codeInjectionIssues at hx
  split at hx
  · split at hx <;> simp_all
  · simp at hx

theorem pickleIssues_mem (f : Expr) (lineno : Nat) :
    ∀ x ∈ SecurityVisitor.pickleIssues f lineno,
      x.issue = "insecure_deserialization" ∧ x.lineno = lineno := by
  intro x hx
  unfold SecurityVisitor.pickleIssues at hx
  split at hx
  · split at hx <;> simp_all
  · simp at hx

theorem commandIssues_mem (f : Expr) (kws : List Keyword) (lineno : Nat) :
    ∀ x ∈ SecurityVisitor.commandInjectionIssues f kws lineno,
      x.issue = "command_injection" ∧ x.lineno = lineno := by
  intro x hx
  unfold SecurityVisitor.commandInjectionIssues at hx
  split at hx
  · split at hx
    · simp only [List.mem_flatMap] at hx
      obtain ⟨kw, -, hx⟩ := hx
      cases kw with
      | mk arg value => split at hx <;> simp_all
    · simp at hx
  · simp at hx

theorem visit_Call_issue_mem (f : Expr) (kws : List Keyword) (lineno : Nat) :
    ∀ x ∈ SecurityVisitor.visit_Call_issues f kws lineno,
      (x.issue = "code_injection" ∨ x.issue = "insecure_deserialization"
        ∨ x.issue = "command_injection") ∧ x.lineno = lineno := by
  intro x hx
  simp only [SecurityVisitor.visit_Call_issues, List.mem_append] at hx
  rcases hx with (h | h) | h
  · have := codeInjectionIssues_mem f lineno x h
    exact ⟨Or.inl this.1, this.2⟩
  · have := pickleIssues_mem f lineno x h
    exact ⟨Or.inr (Or.inl this.1), this.2⟩
  · have := commandIssues_mem f kws lineno x h
    exact ⟨Or.inr (Or.inr this.1), this.2⟩

theorem visit_Call_filter_ci (f : Expr) (kws : List Keyword) (lineno : Nat) :
    (SecurityVisitor.visit_Call_issues f kws lineno).filter (hasIssue "code_injection")
      = (claimCallInjection (f, lineno)).toList := by
  have hp : (SecurityVisitor.pickleIssues f lineno).filter (hasIssue "code_injection") = [] := by
    rw [List.filter_eq_nil_iff]
    intro x hx
    simp [hasIssue, (pickleIssues_mem f lineno x hx).1]
  have hc : (SecurityVisitor.commandInjectionIssues f kws lineno).filter
      (hasIssue "code_injection") = [] := by
    rw [List.filter_eq_nil_iff]
    intro x hx
    simp [hasIssue, (commandIssues_mem f kws lineno x hx).1]
  have hci : (SecurityVisitor.codeInjectionIssues f lineno).filter (hasIssue "code_injection")
      = SecurityVisitor.codeInjectionIssues f lineno := by
    rw [List.filter_eq_self]
    intro x hx
    simp [hasIssue, (codeInjectionIssues_mem f lineno x hx).1]
  simp only [SecurityVisitor.visit_Call_issues, List.filter_append, hp, hc, hci,
    List.append_nil]
  exact codeInjection_eq_claim f lineno

theorem sqlScanLines_mem (pat : List RTok) (desc : String) :
    ∀ (lines : List String) (i : Nat) (x : SecurityFinding),
      x ∈ SecurityVisitor.sqlScanLines pat desc i lines →
      x.issue = "sql_injection" ∧ x.name = desc ∧ i ≤ x.lineno ∧ x.lineno < i + lines.length
  | [], i, x, hx => by simp [SecurityVisitor.sqlScanLines] at hx
  | line :: rest, i, x, hx => by
      simp only [SecurityVisitor.sqlScanLines, List.mem_append] at hx
      rcases hx with h | h
      · split at h
        · simp only [List.mem_singleton] at h
          subst h
          refine ⟨rfl, rfl, Nat.le_refl _, ?_⟩
          simp only [SecurityVisitor.sqlFinding, List.length_cons]
          omega
        · simp at h
      · obtain ⟨ha, hb, hc, hd⟩ := sqlScanLines_mem pat desc rest (i + 1) x h
        refine ⟨ha, hb, by omega, ?_⟩
        simp only [List.length_cons]
        omega

theorem sqlScanLines_chain (pat : List RTok) (desc : String) :
    ∀ (lines : List String) (i : Nat),
      List.Chain' (· < ·) ((SecurityVisitor.sqlScanLines pat desc i lines).map (·.lineno))
  | [], i => by simp [SecurityVisitor.sqlScanLines]
  | line :: rest, i => by
      simp only [SecurityVisitor.sqlScanLines]
      split
      · simp only [List.singleton_append, List.map_cons]
        refine List.chain'_cons'.mpr ⟨?_, sqlScanLines_chain pat desc rest (i + 1)⟩
        intro y hy
        have hy' := List.mem_of_mem_head? hy
        simp only [List.mem_map] at hy'
        obtain ⟨f, hf, rfl⟩ := hy'
        have hlow := (sqlScanLines_mem pat desc rest (i + 1) f hf).2.2.1
        simp only [SecurityVisitor.sqlFinding]
        omega
      · simp only [List.nil_append]
        exact sqlScanLines_chain pat desc rest (i + 1)

theorem check_sql_eq (issues : List SecurityFinding) (lines : List String) :
    SecurityVisitor.check_sql_injection issues lines
      = issues
        ++ (SecurityVisitor.sqlScanLines SecurityVisitor.sqlPattern1
              "SQL string formatting with %s" 1 lines
        ++ (SecurityVisitor.sqlScanLines SecurityVisitor.sqlPattern2
              "SQL f-string" 1 lines
        ++ (SecurityVisitor.sqlScanLines SecurityVisitor.sqlPattern3
              "SQL string concatenation" 1 lines
        ++ SecurityVisitor.sqlScanLines SecurityVisitor.sqlPattern4
              "SQL .format()" 1 lines))) := by
  simp [SecurityVisitor.check_sql_injection, SecurityVisitor.sql_patterns,
    List.foldl_cons, List.foldl_nil, List.append_assoc]

theorem visit_Assign_filter_ci (targets : List Expr) (value : Expr) (lineno : Nat) :
    (SecurityVisitor.visit_Assign_issues targets value lineno).filter
      (hasIssue "code_injection") = [] := by
  rw [List.filter_eq_nil_iff]
  intro x hx
  rcases (visit_Assign_issue_mem targets value lineno x hx).1 with h | h <;> simp [hasIssue, h]

theorem sqlScan_filter_ci (pat : List RTok) (desc : String) (i : Nat) (lines : List String) :
    (SecurityVisitor.sqlScanLines pat desc i lines).filter (hasIssue "code_injection") = [] := by
  rw [List.filter_eq_nil_iff]
  intro x hx
  simp [hasIssue, (sqlScanLines_mem pat desc lines i x hx).1]

mutual

theorem secExpr_filter_ci : ∀ e : Expr,
    (SecurityVisitor.secExpr e).filter (hasIssue "code_injection")
      = (callSitesExpr e).filterMap claimCallInjection
  | .name _ _ => rfl
  | .attribute v _ _ => by
      simp only [SecurityVisitor.secExpr, callSitesExpr]
      exact secExpr_filter_ci v
  | .constant _ _ => rfl
  | .boolOp values _ => by
      simp only [SecurityVisitor.secExpr, callSitesExpr]
      exact secExprList_filter_ci values
  | .ifExp t b o _ => by
      simp only [SecurityVisitor.secExpr, callSitesExpr, List.filter_append,
        List.filterMap_append, secExpr_filter_ci t, secExpr_filter_ci b, secExpr_filter_ci o]
  | .call f args kws lineno => by
      simp only [SecurityVisitor.secExpr, callSitesExpr, List.filter_append,
        List.filterMap_cons, List.filterMap_append, visit_Call_filter_ci f kws lineno,
        secExpr_filter_ci f, secExprList_filter_ci args, secKeywordList_filter_ci kws]
      cases hcl : claimCallInjection (f, lineno) <;> simp [hcl]
  | .otherExpr children _ => by
      simp only [SecurityVisitor.secExpr, callSitesExpr]
      exact secExprList_filter_ci children

theorem secExprList_filter_ci : ∀ es : List Expr,
    (SecurityVisitor.secExprList es).filter (hasIssue "code_injection")
      = (callSitesExprList es).filterMap claimCallInjection
  | [] => rfl
  | e :: es => by
      simp only [SecurityVisitor.secExprList, callSitesExprList, List.filter_append,
        List.filterMap_append, secExpr_filter_ci e, secExprList_filter_ci es]

theorem secKeyword_filter_ci : ∀ k : Keyword,
    (SecurityVisitor.secKeyword k).filter (hasIssue "code_injection")
      = (callSitesKeyword k).filterMap claimCallInjection
  | .mk _ value => by
      simp only [SecurityVisitor.secKeyword, callSitesKeyword]
      exact secExpr_filter_ci value

theorem secKeywordList_filter_ci : ∀ ks : List Keyword,
    (SecurityVisitor.secKeywordList ks).filter (hasIssue "code_injection")
      = (callSitesKeywordList ks).filterMap claimCallInjection
  | [] => rfl
  | k :: ks => by
      simp only [SecurityVisitor.secKeywordList, callSitesKeywordList, List.filter_append,
        List.filterMap_append, secKeyword_filter_ci k, secKeywordList_filter_ci ks]

theorem secStmt_filter_ci : ∀ s : Stmt,
    (SecurityVisitor.secStmt s).filter (hasIssue "code_injection")
      = (callSitesStmt s).filterMap claimCallInjection
  | .functionDef _ _ body _ => by
      simp only [SecurityVisitor.secStmt, callSitesStmt]
      exact secStmtList_filter_ci body
  | .asyncFunctionDef _ _ body _ => by
      simp only [SecurityVisitor.secStmt, callSitesStmt]
      exact secStmtList_filter_ci body
  | .classDef _ body _ => by
      simp only [SecurityVisitor.secStmt, callSitesStmt]
      exact secStmtList_filter_ci body
  | .assign targets value lineno => by
      simp only [SecurityVisitor.secStmt, callSitesStmt, List.filter_append,
        List.filterMap_append, visit_Assign_filter_ci targets value lineno,
        secExprList_filter_ci targets, secExpr_filter_ci value, List.nil_append]
  | .ifStmt test body orelse _ => by
      simp only [SecurityVisitor.secStmt, callSitesStmt, List.filter_append,
        List.filterMap_append, secExpr_filter_ci test, secStmtList_filter_ci body,
        secStmtList_filter_ci orelse]
  | .whileStmt test body orelse _ => by
      simp only [SecurityVisitor.secStmt, callSitesStmt, List.filter_append,
        List.filterMap_append, secExpr_filter_ci test, secStmtList_filter_ci body,
        secStmtList_filter_ci orelse]
  | .forStmt target iter body orelse _ => by
      simp only [SecurityVisitor.secStmt, callSitesStmt, List.filter_append,
        List.filterMap_append, secExpr_filter_ci target, secExpr_filter_ci iter,
        secStmtList_filter_ci body, secStmtList_filter_ci orelse]
  | .asyncForStmt target iter body orelse _ => by
      simp only [SecurityVisitor.secStmt, callSitesStmt, List.filter_append,
        List.filterMap_append, secExpr_filter_ci target, secExpr_filter_ci iter,
        secStmtList_filter_ci body, secStmtList_filter_ci orelse]
  | .tryStmt body handlers orelse finalbody _ => by
      simp only [SecurityVisitor.secStmt, callSitesStmt, List.filter_append,
        List.filterMap_append, secStmtList_filter_ci body, secHandlerList_filter_ci handlers,
        secStmtList_filter_ci orelse, secStmtList_filter_ci finalbody]
  | .withStmt items body _ => by
      simp only [SecurityVisitor.secStmt, callSitesStmt, List.filter_append,
        List.filterMap_append, secExprList_filter_ci items, secStmtList_filter_ci body]
  | .asyncWithStmt items body _ => by
      simp only [SecurityVisitor.secStmt, callSitesStmt, List.filter_append,
        List.filterMap_append, secExprList_filter_ci items, secStmtList_filter_ci body]
  | .otherStmt exprs body _ => by
      simp only [SecurityVisitor.secStmt, callSitesStmt, List.filter_append,
        List.filterMap_append, secExprList_filter_ci exprs, secStmtList_filter_ci body]

theorem secStmtList_filter_ci : ∀ ss : List Stmt,
    (SecurityVisitor.secStmtList ss).filter (hasIssue "code_injection")
      = (callSitesStmtList ss).filterMap claimCallInjection
  | [] => rfl
  | s :: ss => by
      simp only [SecurityVisitor.secStmtList, callSitesStmtList, List.filter_append,
        List.filterMap_append, secStmt_filter_ci s, secStmtList_filter_ci ss]

theorem secHandler_filter_ci : ∀ h : Handler,
    (SecurityVisitor.secHandler h).filter (hasIssue "code_injection")
      = (callSitesHandler h).filterMap claimCallInjection
  | .mk body _ => by
      simp only [SecurityVisitor.secHandler, callSitesHandler]
      exact secStmtList_filter_ci body

theorem secHandlerList_filter_ci : ∀ hs : List Handler,
    (SecurityVisitor.secHandlerList hs).filter (hasIssue "code_injection")
      = (callSitesHandlerList hs).filterMap claimCallInjection
  | [] => rfl
  | h :: hs => by
      simp only [SecurityVisitor.secHandlerList, callSitesHandlerList, List.filter_append,
        List.filterMap_append, secHandler_filter_ci h, secHandlerList_filter_ci hs]

end

mutual

theorem secExpr_lineno : ∀ (n : Nat) (e : Expr), linesOkExpr n e = true →
    ∀ x ∈ SecurityVisitor.secExpr e, 1 ≤ x.lineno ∧ x.lineno ≤ n
  | n, .name _ _, _ => by simp [SecurityVisitor.secExpr]
  | n, .attribute v _ _, h => by
      simp only [linesOkExpr, Bool.and_eq_true] at h
      simp only [SecurityVisitor.secExpr]
      exact secExpr_lineno n v h.2
  | n, .constant _ _, _ => by simp [SecurityVisitor.secExpr]
  | n, .boolOp values _, h => by
      simp only [linesOkExpr, Bool.and_eq_true] at h
      simp only [SecurityVisitor.secExpr]
      exact secExprList_lineno n values h.2
  | n, .ifExp t b o _, h => by
      simp only [linesOkExpr, Bool.and_eq_true] at h
      intro x hx
      simp only [SecurityVisitor.secExpr, List.mem_append] at hx
      rcases hx with h1 | h2 | h3
      · exact secExpr_lineno n t h.2.1 x h1
      · exact secExpr_lineno n b h.2.2.1 x h2
      · exact secExpr_lineno n o h.2.2.2 x h3
  | n, .call f args kws lineno, h => by
      simp only [linesOkExpr, Bool.and_eq_true, decide_eq_true_eq] at h
      intro x hx
      simp only [SecurityVisitor.secExpr, List.mem_append] at hx
      rcases hx with h0 | h1 | h2 | h3
      · have := (visit_Call_issue_mem f kws lineno x h0).2
        omega
      · exact secExpr_lineno n f h.2.1 x h1
      · exact secExprList_lineno n args h.2.2.1 x h2
      · exact secKeywordList_lineno n kws h.2.2.2 x h3
  | n, .otherExpr children _, h => by
      simp only [linesOkExpr, Bool.and_eq_true] at h
      simp only [SecurityVisitor.secExpr]
      exact secExprList_lineno n children h.2

theorem secExprList_lineno : ∀ (n : Nat) (es : List Expr), linesOkExprList n es = true →
    ∀ x ∈ SecurityVisitor.secExprList es, 1 ≤ x.lineno ∧ x.lineno ≤ n
  | n, [], _ => by simp [SecurityVisitor.secExprList]
  | n, e :: es, h => by
      simp only [linesOkExprList, Bool.and_eq_true] at h
      intro x hx
      simp only [SecurityVisitor.secExprList, List.mem_append] at hx
      rcases hx with h1 | h2
      · exact secExpr_lineno n e h.1 x h1
      · exact secExprList_lineno n es h.2 x h2

theorem secKeyword_lineno : ∀ (n : Nat) (k : Keyword), linesOkKeyword n k = true →
    ∀ x ∈ SecurityVisitor.secKeyword k, 1 ≤ x.lineno ∧ x.lineno ≤ n
  | n, .mk _ value, h => by
      simp only [SecurityVisitor.secKeyword]
      exact secExpr_lineno n value h

theorem secKeywordList_lineno : ∀ (n : Nat) (ks : List Keyword), linesOkKeywordList n ks = true →
    ∀ x ∈ SecurityVisitor.secKeywordList ks, 1 ≤ x.lineno ∧ x.lineno ≤ n
  | n, [], _ => by simp [SecurityVisitor.secKeywordList]
  | n, k :: ks, h => by
      simp only [linesOkKeywordList, Bool.and_eq_true] at h
      intro x hx
      simp only [SecurityVisitor.secKeywordList, List.mem_append] at hx
      rcases hx with h1 | h2
      · exact secKeyword_lineno n k h.1 x h1
      · exact secKeywordList_lineno n ks h.2 x h2

theorem secStmt_lineno : ∀ (n : Nat) (s : Stmt), linesOkStmt n s = true →
    ∀ x ∈ SecurityVisitor.secStmt s, 1 ≤ x.lineno ∧ x.lineno ≤ n
  | n, .functionDef _ _ body _, h => by
      simp only [linesOkStmt, Bool.and_eq_true] at h
      simp only [SecurityVisitor.secStmt]
      exact secStmtList_lineno n body h.2
  | n, .asyncFunctionDef _ _ body _, h => by
      simp only [linesOkStmt, Bool.and_eq_true] at h
      simp only [SecurityVisitor.secStmt]
      exact secStmtList_lineno n body h.2
  | n, .classDef _ body _, h => by
      simp only [linesOkStmt, Bool.and_eq_true] at h
      simp only [SecurityVisitor.secStmt]
      exact secStmtList_lineno n body h.2
  | n, .assign targets value lineno, h => by
      simp only [linesOkStmt, Bool.and_eq_true, decide_eq_true_eq] at h
      intro x hx
      simp only [SecurityVisitor.secStmt, List.mem_append] at hx
      rcases hx with h0 | h1 | h2
      · have := (visit_Assign_issue_mem targets value lineno x h0).2
        omega
      · exact secExprList_lineno n targets h.2.1 x h1
      · exact secExpr_lineno n value h.2.2 x h2
  | n, .ifStmt test body orelse _, h => by
      simp only [linesOkStmt, Bool.and_eq_true] at h
      intro x hx
      simp only [SecurityVisitor.secStmt, List.mem_append] at hx
      rcases hx with h1 | h2 | h3
      · exact secExpr_lineno n test h.2.1 x h1
      · exact secStmtList_lineno n body h.2.2.1 x h2
      · exact secStmtList_lineno n orelse h.2.2.2 x h3
  | n, .whileStmt test body orelse _, h => by
      simp only [linesOkStmt, Bool.and_eq_true] at h
      intro x hx
      simp only [SecurityVisitor.secStmt, List.mem_append] at hx
      rcases hx with h1 | h2 | h3
      · exact secExpr_lineno n test h.2.1 x h1
      · exact secStmtList_lineno n body h.2.2.1 x h2
      · exact secStmtList_lineno n orelse h.2.2.2 x h3
  | n, .forStmt target iter body orelse _, h => by
      simp only [linesOkStmt, Bool.and_eq_true] at h
      intro x hx
      simp only [SecurityVisitor.secStmt, List.mem_append] at hx
      rcases hx with h1 | h2 | h3 | h4
      · exact secExpr_lineno n target h.2.1 x h1
      · exact secExpr_lineno n iter h.2.2.1 x h2
      · exact secStmtList_lineno n body h.2.2.2.1 x h3
      · exact secStmtList_lineno n orelse h.2.2.2.2 x h4
  | n, .asyncForStmt target iter body orelse _, h => by
      simp only [linesOkStmt, Bool.and_eq_true] at h
      intro x hx
      simp only [SecurityVisitor.secStmt, List.mem_append] at hx
      rcases hx with h1 | h2 | h3 | h4
      · exact secExpr_lineno n target h.2.1 x h1
      · exact secExpr_lineno n iter h.2.2.1 x h2
      · exact secStmtList_lineno n body h.2.2.2.1 x h3
      · exact secStmtList_lineno n orelse h.2.2.2.2 x h4
  | n, .tryStmt body handlers orelse finalbody _, h => by
      simp only [linesOkStmt, Bool.and_eq_true] at h
      intro x hx
      simp only [SecurityVisitor.secStmt, List.mem_append] at hx
      rcases hx with h1 | h2 | h3 | h4
      · exact secStmtList_lineno n body h.2.1 x h1
      · exact secHandlerList_lineno n handlers h.2.2.1 x h2
      · exact secStmtList_lineno n orelse h.2.2.2.1 x h3
      · exact secStmtList_lineno n finalbody h.2.2.2.2 x h4
  | n, .withStmt items body _, h => by
      simp only [linesOkStmt, Bool.and_eq_true] at h
      intro x hx
      simp only [SecurityVisitor.secStmt, List.mem_append] at hx
      rcases hx with h1 | h2
      · exact secExprList_lineno n items h.2.1 x h1
      · exact secStmtList_lineno n body h.2.2 x h2
  | n, .asyncWithStmt items body _, h => by
      simp only [linesOkStmt, Bool.and_eq_true] at h
      intro x hx
      simp only [SecurityVisitor.secStmt, List.mem_append] at hx
      rcases hx with h1 | h2
      · exact secExprList_lineno n items h.2.1 x h1
      · exact secStmtList_lineno n body h.2.2 x h2
  | n, .otherStmt exprs body _, h => by
      simp only [linesOkStmt, Bool.and_eq_true] at h
      intro x hx
      simp only [SecurityVisitor.secStmt, List.mem_append] at hx
      rcases hx with h1 | h2
      · exact secExprList_lineno n exprs h.2.1 x h1
      · exact secStmtList_lineno n body h.2.2 x h2

theorem secStmtList_lineno : ∀ (n : Nat) (ss : List Stmt), linesOkStmtList n ss = true →
    ∀ x ∈ SecurityVisitor.secStmtList ss, 1 ≤ x.lineno ∧ x.lineno ≤ n
  | n, [], _ => by simp [SecurityVisitor.secStmtList]
  | n, s :: ss, h => by
      simp only [linesOkStmtList, Bool.and_eq_true] at h
      intro x hx
      simp only [SecurityVisitor.secStmtList, List.mem_append] at hx
      rcases hx with h1 | h2
      · exact secStmt_lineno n s h.1 x h1
      · exact secStmtList_lineno n ss h.2 x h2

theorem secHandler_lineno : ∀ (n : Nat) (hd : Handler), linesOkHandler n hd = true →
    ∀ x ∈ SecurityVisitor.secHandler hd, 1 ≤ x.lineno ∧ x.lineno ≤ n
  | n, .mk body _, h => by
      simp only [linesOkHandler, Bool.and_eq_true] at h
      simp only [SecurityVisitor.secHandler]
      exact secStmtList_lineno n body h.2

theorem secHandlerList_lineno : ∀ (n : Nat) (hs : List Handler), linesOkHandlerList n hs = true →
    ∀ x ∈ SecurityVisitor.secHandlerList hs, 1 ≤ x.lineno ∧ x.lineno ≤ n
  | n, [], _ => by simp [SecurityVisitor.secHandlerList]
  | n, hd :: hs, h => by
      simp only [linesOkHandlerList, Bool.and_eq_true] at h
      intro x hx
      simp only [SecurityVisitor.secHandlerList, List.mem_append] at hx
      rcases hx with h1 | h2
      · exact secHandler_lineno n hd h.1 x h1
      · exact secHandlerList_lineno n hs h.2 x h2

end

theorem visit_Assign_filter_csrf (targets : List Expr) (value : Expr) (lineno : Nat) :
    (SecurityVisitor.visit_Assign_issues targets value lineno).filter (hasIssue "csrf_disabled")
      = targets.filterMap (claimCsrfOfTarget value lineno) := by
  induction targets with
  | nil => rfl
  | cons t ts ih =>
      simp only [SecurityVisitor.visit_Assign_issues] at ih ⊢
      simp only [List.flatMap_cons, List.filter_append]
      rw [assignTarget_csrf_filter, ih]
      cases hcl : claimCsrfOfTarget value lineno t <;> simp [List.filterMap_cons, hcl]

theorem visit_Assign_filter_secret (targets : List Expr) (value : Expr) (lineno : Nat) :
    (SecurityVisitor.visit_Assign_issues targets value lineno).filter (hasIssue "hardcoded_secret")
      = targets.filterMap (claimSecretOfTarget value lineno) := by
  induction targets with
  | nil => rfl
  | cons t ts ih =>
      simp only [SecurityVisitor.visit_Assign_issues] at ih ⊢
      simp only [List.flatMap_cons, List.filter_append]
      rw [assignTarget_secret_filter, ih]
      have ht : (match t with
          | .name id _ =>
              if secretTargetMatch value t then [claimSecretFinding id lineno] else []
          | _ => ([] : List SecurityFinding))
          = (claimSecretOfTarget value lineno t).toList := by
        cases t
        case name id l2 =>
          by_cases h : secretTargetMatch value (.name id l2) = true <;>
            simp [claimSecretOfTarget, h]
        all_goals rfl
      rw [ht]
      cases hcl : claimSecretOfTarget value lineno t <;> simp [List.filterMap_cons, hcl]

theorem length_filterMap_eq_countP {α β : Type} (f : α → Option β) (l : List α) :
    (l.filterMap f).length = l.countP (fun a => (f a).isSome) := by
  induction l with
  | nil => rfl
  | cons a l ih =>
      cases h : f a <;> simp [List.filterMap_cons, h, List.countP_cons, ih]

theorem claimCsrfOfTarget_isSome : ∀ (value : Expr) (lineno : Nat) (t : Expr),
    (claimCsrfOfTarget value lineno t).isSome = csrfTargetMatch value t
  | value, lineno, .name id l => by
      simp only [claimCsrfOfTarget, csrfTargetMatch]
      by_cases h1 : pyLower id ∈ ["csrf", "csrf_enabled", "wtf_csrf_enabled"]
      · by_cases h2 : claimEqFalseValue value = true
        · simp [h1, h2]
        · simp only [Bool.not_eq_true] at h2
          simp [h1, h2]
      · simp [h1]
  | _, _, .constant _ _ => rfl
  | _, _, .attribute _ _ _ => rfl
  | _, _, .boolOp _ _ => rfl
  | _, _, .ifExp _ _ _ _ => rfl
  | _, _, .call _ _ _ _ => rfl
  | _, _, .otherExpr _ _ => rfl

theorem claimSecretOfTarget_isSome : ∀ (value : Expr) (lineno : Nat) (t : Expr),
    (claimSecretOfTarget value lineno t).isSome = secretTargetMatch value t
  | value, lineno, .name id l => by
      by_cases h : secretTargetMatch value (.name id l) = true <;>
        simp [claimSecretOfTarget, h]
  | _, _, .constant _ _ => rfl
  | _, _, .attribute _ _ _ => rfl
  | _, _, .boolOp _ _ => rfl
  | _, _, .ifExp _ _ _ _ => rfl
  | _, _, .call _ _ _ _ => rfl
  | _, _, .otherExpr _ _ => rfl

/-! ## Claim theorems -/

/-- C2 (confirmed): for every function, method or async-function
definition, the complexity reported by `analyze_function` equals 1 plus
the number of conditional branches / loops / exception-tries / handler
clauses / context blocks, plus the number of conditional expressions,
plus (N − 1) for each N-operand boolean expression, over the entire
subtree rooted at the definition (nested definitions' bodies included);
in particular `def f():\n if a and b and c: pass` has complexity 4. -/
theorem complexity_matches_claim :
    (∀ name args body lineno,
        (MetricsVisitor.analyze_function name args body lineno).complexity
          = some (claimComplexity body))
    ∧ MetricsVisitor.run
        [.functionDef "f" ⟨[], [], none, [], none⟩
          [.ifStmt (.boolOp [.name "a" 2, .name "b" 2, .name "c" 2] 2)
            [.otherStmt [] [] 2] [] 2] 1]
        = [.functionRecord "f" 4 0 1] := by
  constructor
  · intro name args body lineno
    simp only [MetricsVisitor.analyze_function, MetricRecord.complexity, claimComplexity,
      stmtListWalk_eq, cx_sum_split, Option.some.injEq]
    omega
  · decide

/-- C3 fails on the code: `analyze_function` counts `len(node.args.args)`,
which excludes positional-only parameters, while the claim's formula
includes them.  For `def f(a, /, b): pass` (one positional-only parameter
`a`, one regular positional parameter `b`) the code reports 1 parameter
but the claim's formula gives 2. -/
theorem parameters_claim_counterexample :
    (MetricsVisitor.analyze_function "f" ⟨["a"], ["b"], none, [], none⟩
        [.otherStmt [] [] 1] 1).parameters = some 1
    ∧ claimParameterCount ⟨["a"], ["b"], none, [], none⟩ = 2
    ∧ (MetricsVisitor.analyze_function "f" ⟨["a"], ["b"], none, [], none⟩
        [.otherStmt [] [] 1] 1).parameters
        ≠ some (claimParameterCount ⟨["a"], ["b"], none, [], none⟩) := by
  refine ⟨rfl, rfl, ?_⟩
  decide

/-- C3 (amended): the reported parameter count equals the number of
*regular* positional parameters — excluding positional-only ones —
(including those with default values), plus keyword-only parameters, plus
1 for a variadic-positional and 1 for a variadic-keyword parameter.  When
the definition has no positional-only parameters this agrees with the
original claim, and the spec's example `def f(a, b, *args, c=1, **kw)`
reports 5. -/
theorem parameters_matches_amended_claim :
    (∀ name args body lineno,
        (MetricsVisitor.analyze_function name args body lineno).parameters
          = some (args.args.length + args.kwonlyargs.length
              + (if args.vararg.isSome then 1 else 0)
              + (if args.kwarg.isSome then 1 else 0)))
    ∧ (∀ args : Arguments, args.posonlyargs = [] →
        claimParameterCount args
          = args.args.length + args.kwonlyargs.length
              + (if args.vararg.isSome then 1 else 0)
              + (if args.kwarg.isSome then 1 else 0))
    ∧ (MetricsVisitor.analyze_function "f" ⟨[], ["a", "b"], some "args", ["c"], some "kw"⟩
        [.otherStmt [] [] 1] 1).parameters = some 5 := by
  refine ⟨fun name args body lineno => rfl, ?_, rfl⟩
  intro args h
  simp [claimParameterCount, h]

/-- Witness for the amended C3: instantiating the hypothesis-bearing
conjunct at a concrete argument record with no positional-only
parameters. -/
theorem parameters_matches_amended_claim_witness :
    claimParameterCount ⟨[], ["a", "b"], some "args", ["c"], some "kw"⟩ = 5 := by
  have h := parameters_matches_amended_claim.2.1
    ⟨[], ["a", "b"], some "args", ["c"], some "kw"⟩ rfl
  simpa using h

/-- C8 (confirmed): the metrics list is built append-only — each visit
step only appends to the accumulated list — and the result is the
pre-order record sequence: a function, async-function or class
definition's own record is emitted first, before every record of a
definition nested inside its body. -/
theorem metrics_preorder_append_only :
    (∀ tree : Module, MetricsVisitor.run tree = recordsStmtList tree)
    ∧ (∀ acc ss, MetricsVisitor.visitStmts acc ss = acc ++ recordsStmtList ss)
    ∧ (∀ acc s, MetricsVisitor.visitStmt acc s = acc ++ recordsStmt s)
    ∧ (∀ name args body lineno,
        recordsStmt (.functionDef name args body lineno)
          = MetricsVisitor.analyze_function name args body lineno :: recordsStmtList body)
    ∧ (∀ name args body lineno,
        recordsStmt (.asyncFunctionDef name args body lineno)
          = MetricsVisitor.analyze_function name args body lineno :: recordsStmtList body)
    ∧ (∀ name body lineno,
        recordsStmt (.classDef name body lineno)
          = MetricRecord.classRecord name ((body.filter MetricsVisitor.is_method).length) lineno
              :: recordsStmtList body) := by
  refine ⟨fun tree => ?_, visitStmts_append, visitStmt_append,
    fun _ _ _ _ => rfl, fun _ _ _ _ => rfl, fun _ _ _ => rfl⟩
  simpa using visitStmts_append [] tree

/-- C1 (confirmed): `analyze_code` returns exactly one of the two shapes,
decided by the parse outcome: on a parse exception it is the failure
shape, built from the exception message alone (no visitor output occurs
in it), and it is not the success shape; on a parsed tree it is the
success shape carrying the metrics and security lists, and it is not the
failure shape. -/
theorem analyze_code_two_shapes (content : String) (parseResult : Except PyExc Module) :
    (∃ e, parseResult = Except.error e
      ∧ analyze_code content parseResult = Output.failure e.str
      ∧ ∀ m s, analyze_code content parseResult ≠ Output.success m s)
    ∨ (∃ tree, parseResult = Except.ok tree
      ∧ analyze_code content parseResult
          = Output.success (MetricsVisitor.run tree) (SecurityVisitor.run content tree)
      ∧ ∀ msg, analyze_code content parseResult ≠ Output.failure msg) := by
  cases parseResult with
  | error e => exact Or.inl ⟨e, rfl, rfl, fun m s h => by simp [analyze_code] at h⟩
  | ok tree => exact Or.inr ⟨tree, rfl, rfl, fun msg h => by simp [analyze_code] at h⟩

/-- C7 fails on the code: the `except Exception` clause wraps the whole
body of `analyze_code` — visitors and textual scan included — so an
unexpected non-parse exception raised during traversal (here a
`RecursionError` after a successful parse) is caught and converted to the
failure report instead of propagating out of `analyze` uncaught. -/
theorem analyze_catch_counterexample :
    analyze_code_exc "x = 1" (Except.ok [.assign [.name "x" 1] (.constant (.intC 1) 1) 1])
        (some (.otherError "maximum recursion depth exceeded"))
      = Output.failure "maximum recursion depth exceeded" := rfl

/-- C7 (amended): the single `except Exception` handler at the
`analyze_code` boundary catches every exception raised anywhere in the
body — a parse failure or any other failure during traversal or scanning
alike — and converts it to the failure report built from `str(e)`;
no exception propagates, and the success shape is produced exactly when
the body raises nothing. -/
theorem analyze_catches_all_exceptions (content : String)
    (parseResult : Except PyExc Module) (travExc : Option PyExc) :
    (∀ e, parseResult = Except.error e →
      analyze_code_exc content parseResult travExc = Output.failure e.str)
    ∧ (∀ tree e, parseResult = Except.ok tree → travExc = some e →
      analyze_code_exc content parseResult travExc = Output.failure e.str)
    ∧ (∀ tree, parseResult = Except.ok tree → travExc = none →
      analyze_code_exc content parseResult travExc
        = Output.success (MetricsVisitor.run tree) (SecurityVisitor.run content tree)) := by
  refine ⟨fun e he => ?_, fun tree e ht he => ?_, fun tree ht he => ?_⟩
  · subst he; rfl
  · subst ht; subst he; rfl
  · subst ht; subst he; rfl

/-- Witness for the amended C7, at concrete inputs for each of the three
branches. -/
theorem analyze_catches_all_exceptions_witness :
    analyze_code_exc "" (Except.error (.syntaxError "invalid syntax")) none
        = Output.failure "invalid syntax"
    ∧ analyze_code_exc "x = 1" (Except.ok [.assign [.name "x" 1] (.constant (.intC 1) 1) 1])
        (some (.otherError "boom")) = Output.failure "boom"
    ∧ analyze_code_exc "pass" (Except.ok [.otherStmt [] [] 1]) none
        = Output.success (MetricsVisitor.run [.otherStmt [] [] 1])
            (SecurityVisitor.run "pass" [.otherStmt [] [] 1]) :=
  ⟨(analyze_catches_all_exceptions "" (Except.error (.syntaxError "invalid syntax")) none).1
      (.syntaxError "invalid syntax") rfl,
   (analyze_catches_all_exceptions "x = 1"
      (Except.ok [.assign [.name "x" 1] (.constant (.intC 1) 1) 1])
      (some (.otherError "boom"))).2.1 _ (.otherError "boom") rfl rfl,
   (analyze_catches_all_exceptions "pass" (Except.ok [.otherStmt [] [] 1]) none).2.2 _ rfl rfl⟩

/-- C4 fails on the code: the test `node.value.value == False` is Python
equality, under which the integer 0 compares equal to `False`; so
`csrf = 0` — whose assigned value is a non-boolean constant, not the
literal boolean false — still produces a csrf_disabled finding.  This
contradicts "assigning any other value (for example the boolean true, or
any non-boolean constant) produces no csrf_disabled finding". -/
theorem csrf_claim_counterexample :
    SecurityVisitor.visit_Assign_issues [.name "csrf" 1] (.constant (.intC 0) 1) 1
        = [claimCsrfFinding "csrf" 1]
    ∧ isBoolFalseLiteral (.constant (.intC 0) 1) = false := by
  refine ⟨by decide, rfl⟩

/-- C4 (amended): an assignment node produces csrf_disabled findings
exactly for those targets that are simple names whose lower-cased name is
in {csrf, csrf_enabled, wtf_csrf_enabled} and whose assigned value is a
literal constant equal to false under Python equality — the boolean false
or the number 0; any other value produces no csrf_disabled finding.  The
spec's examples hold: `csrf_enabled = False` yields the finding,
`csrf_enabled = True` yields none. -/
theorem csrf_matches_amended_claim :
    (∀ targets value lineno,
      (SecurityVisitor.visit_Assign_issues targets value lineno).filter
          (hasIssue "csrf_disabled")
        = targets.filterMap (claimCsrfOfTarget value lineno))
    ∧ SecurityVisitor.visit_Assign_issues [.name "csrf_enabled" 1]
        (.constant (.boolC false) 1) 1 = [claimCsrfFinding "csrf_enabled" 1]
    ∧ SecurityVisitor.visit_Assign_issues [.name "csrf_enabled" 1]
        (.constant (.boolC true) 1) 1 = [] :=
  ⟨visit_Assign_filter_csrf, by decide, by decide⟩

/-- C5 (confirmed): over the full analysis output, the code_injection
findings are exactly one per call site whose callee is the bare name
`eval`/`exec` or an attribute access with attribute name `eval`/`exec`,
each at its call's line; in particular both `eval(x)` and the
receiver-qualified `obj.eval(x)` yield the finding. -/
theorem code_injection_on_every_eval_exec_call :
    (∀ content (tree : Module),
      (SecurityVisitor.run content tree).filter (hasIssue "code_injection")
        = (callSitesStmtList tree).filterMap claimCallInjection)
    ∧ SecurityVisitor.secStmtList
        [.otherStmt [.call (.name "eval" 1) [.name "x" 1] [] 1] [] 1]
        = [claimCodeInjectionFinding "eval" 1]
    ∧ SecurityVisitor.secStmtList
        [.otherStmt [.call (.attribute (.name "obj" 1) "eval" 1) [.name "x" 1] [] 1] [] 1]
        = [claimCodeInjectionFinding "eval" 1] := by
  refine ⟨fun content tree => ?_, by decide, by decide⟩
  unfold SecurityVisitor.run
  rw [check_sql_eq]
  simp only [List.filter_append, sqlScan_filter_ci, List.append_nil]
  exact secStmtList_filter_ci tree

/-- C6 fails on the code: `visit_Assign` loops over all targets of the
assignment and appends one finding per matching target, so the single
node `csrf = csrf_enabled = False` makes the CSRF rule emit two findings
for one node. -/
theorem rule_once_per_node_counterexample :
    SecurityVisitor.visit_Assign_issues [.name "csrf" 1, .name "csrf_enabled" 1]
        (.constant (.boolC false) 1) 1
      = [claimCsrfFinding "csrf" 1, claimCsrfFinding "csrf_enabled" 1]
    ∧ ((SecurityVisitor.visit_Assign_issues [.name "csrf" 1, .name "csrf_enabled" 1]
        (.constant (.boolC false) 1) 1).filter (hasIssue "csrf_disabled")).length = 2 :=
  ⟨by decide, by decide⟩

/-- C6 (amended): for an assignment node, each assignment rule fires at
most once per matching simple-name *target* — the number of csrf_disabled
(resp. hardcoded_secret) findings equals the number of targets matching
that rule — so a node with one matching target yields one finding and a
multi-target assignment yields one finding per matching target. -/
theorem rule_once_per_matching_target :
    ∀ targets value lineno,
      ((SecurityVisitor.visit_Assign_issues targets value lineno).filter
          (hasIssue "csrf_disabled")).length
        = targets.countP (csrfTargetMatch value)
      ∧ ((SecurityVisitor.visit_Assign_issues targets value lineno).filter
          (hasIssue "hardcoded_secret")).length
        = targets.countP (secretTargetMatch value) := by
  intro targets value lineno
  constructor
  · rw [visit_Assign_filter_csrf, length_filterMap_eq_countP]
    exact List.countP_congr fun t _ => by rw [claimCsrfOfTarget_isSome value lineno t]
  · rw [visit_Assign_filter_secret, length_filterMap_eq_countP]
    exact List.countP_congr fun t _ => by rw [claimSecretOfTarget_isSome value lineno t]

/-- C9 (confirmed): for a tree whose node lines all lie within the
source's line count — which the parser guarantees for a successfully
parsed source — every emitted security finding, structural or textual,
has a `lineno` between 1 and the number of lines of the source text. -/
theorem findings_lineno_within_line_count :
    ∀ content (tree : Module), linesOkStmtList (lineCount content) tree = true →
      (SecurityVisitor.run content tree).all
        (fun f => decide (1 ≤ f.lineno ∧ f.lineno ≤ lineCount content)) = true := by
  intro content tree h
  rw [List.all_eq_true]
  intro x hx
  rw [decide_eq_true_eq]
  unfold SecurityVisitor.run at hx
  rw [check_sql_eq] at hx
  simp only [List.mem_append] at hx
  have hsql : ∀ pat desc, x ∈ SecurityVisitor.sqlScanLines pat desc 1 (pySplitNl content) →
      1 ≤ x.lineno ∧ x.lineno ≤ lineCount content := by
    intro pat desc hm
    have := sqlScanLines_mem pat desc (pySplitNl content) 1 x hm
    unfold lineCount
    omega
  rcases hx with h0 | h1 | h2 | h3 | h4
  · exact secStmtList_lineno (lineCount content) tree h x h0
  · exact hsql _ _ h1
  · exact hsql _ _ h2
  · exact hsql _ _ h3
  · exact hsql _ _ h4

/-- Witness for C9: a two-line source whose tree has one CSRF assignment
on line 1 and one `eval` call on line 2, plus a textual SQL match. -/
theorem findings_lineno_within_line_count_witness :
    (SecurityVisitor.run "csrf = False\ncursor.execute(\"%s\" % x)"
        [.assign [.name "csrf" 1] (.constant (.boolC false) 1) 1,
         .otherStmt [.call (.name "eval" 2) [.name "x" 2] [] 2] [] 2]).all
      (fun f => decide (1 ≤ f.lineno
        ∧ f.lineno ≤ lineCount "csrf = False\ncursor.execute(\"%s\" % x)")) = true :=
  findings_lineno_within_line_count _ _ (by decide)

/-- C10 (confirmed): the textual scan appends its sql_injection findings
grouped by catalog pattern, not by position — `check_sql_injection`
extends the issue list with the first pattern's findings in ascending
line order, then the second pattern's, and so on — so two findings for
different patterns on the same line are separated by the rest of the
first pattern's group, as the concrete two-line example shows. -/
theorem sql_scan_grouped_by_pattern :
    (∀ issues lines,
      SecurityVisitor.check_sql_injection issues lines
        = issues
          ++ (SecurityVisitor.sqlScanLines SecurityVisitor.sqlPattern1
                "SQL string formatting with %s" 1 lines
          ++ (SecurityVisitor.sqlScanLines SecurityVisitor.sqlPattern2
                "SQL f-string" 1 lines
          ++ (SecurityVisitor.sqlScanLines SecurityVisitor.sqlPattern3
                "SQL string concatenation" 1 lines
          ++ SecurityVisitor.sqlScanLines SecurityVisitor.sqlPattern4
                "SQL .format()" 1 lines))))
    ∧ (∀ pat desc i lines,
        List.Chain' (· < ·) ((SecurityVisitor.sqlScanLines pat desc i lines).map (·.lineno)))
    ∧ (∀ pat desc i lines x, x ∈ SecurityVisitor.sqlScanLines pat desc i lines →
        x.issue = "sql_injection" ∧ x.name = desc)
    ∧ SecurityVisitor.check_sql_injection []
        ["cursor.execute(\"a%s\" + x)", "cursor.execute(\"b%s\" + y)"]
        = [SecurityVisitor.sqlFinding "SQL string formatting with %s" 1,
           SecurityVisitor.sqlFinding "SQL string formatting with %s" 2,
           SecurityVisitor.sqlFinding "SQL string concatenation" 1,
           SecurityVisitor.sqlFinding "SQL string concatenation" 2] :=
  ⟨check_sql_eq,
   fun pat desc i lines => sqlScanLines_chain pat desc lines i,
   fun pat desc i lines x hx =>
     ⟨(sqlScanLines_mem pat desc lines i x hx).1, (sqlScanLines_mem pat desc lines i x hx).2.1⟩,
   by decide⟩

/-- Witness for C10: the membership conjunct applied to a concrete
matching line of the first catalog pattern. -/
theorem sql_scan_grouped_by_pattern_witness :
    SecurityVisitor.sqlFinding "SQL string formatting with %s" 1
        ∈ SecurityVisitor.sqlScanLines SecurityVisitor.sqlPattern1
            "SQL string formatting with %s" 1 ["cursor.execute(\"%s\" % x)"]
    ∧ (SecurityVisitor.sqlFinding "SQL string formatting with %s" 1).issue = "sql_injection"
    ∧ (SecurityVisitor.sqlFinding "SQL string formatting with %s" 1).name
        = "SQL string formatting with %s" :=
  ⟨by decide,
   (sql_scan_grouped_by_pattern.2.2.1 SecurityVisitor.sqlPattern1
      "SQL string formatting with %s" 1 ["cursor.execute(\"%s\" % x)"]
      (SecurityVisitor.sqlFinding "SQL string formatting with %s" 1) (by decide)).1,
   (sql_scan_grouped_by_pattern.2.2.1 SecurityVisitor.sqlPattern1
      "SQL string formatting with %s" 1 ["cursor.execute(\"%s\" % x)"]
      (SecurityVisitor.sqlFinding "SQL string formatting with %s" 1) (by decide)).2⟩

end Rigour
